import Mathlib

/-!
# Verification of the ParseHub incremental-scraping orchestration services

Shallow embedding of the pure algorithmic cores of the repository:

* `backend/url_generator.py` — pagination pattern detection and next-page URL
  generation (`URLGenerator.detect_pattern`, `URLGenerator.generate_next_url`);
* `backend/data_consolidation_service.py` — CSV parsing, record fingerprinting,
  merge/dedup and the `compare_pages` helper;
* `backend/monitoring_service.py` — the recovery detector and attempt counter;
* `backend/session_monitor.py` — the per-cycle page-range computation.

Strings are modelled as `List Char`.  Python regular-expression searches are
modelled by explicit leftmost scanners specialised to the fixed patterns that
appear in the source (`re` is only ever invoked on those constants).  The
character classes `\d` and `\w` are modelled at ASCII level, which covers every
input the services construct.  `md5` hashing of a serialized record is modelled
by the serialized text itself (hash equality stands for serialization
equality).  Python floats in `compare_pages` are modelled by exact rationals.
-/

namespace PyStr

/-- ASCII decimal digit, the model of the regex class `\d` on these URLs. -/
def isDig (c : Char) : Bool := 48 ≤ c.toNat && c.toNat ≤ 57

/-- ASCII word character, the model of the regex class `\w`
(`[A-Za-z0-9_]`). -/
def isWordChar (c : Char) : Bool :=
  (48 ≤ c.toNat && c.toNat ≤ 57) || (65 ≤ c.toNat && c.toNat ≤ 90) ||
  (97 ≤ c.toNat && c.toNat ≤ 122) || c.toNat == 95

/-- Python's `str.lower` on one character (ASCII range, as in these URLs). -/
def pyLower (c : Char) : Char :=
  if 65 ≤ c.toNat ∧ c.toNat ≤ 90 then Char.ofNat (c.toNat + 32) else c

/-- A string is unchanged by `str.lower`. -/
def lowerFixed (l : List Char) : Prop := l.map pyLower = l

instance (l : List Char) : Decidable (lowerFixed l) := by
  unfold lowerFixed; infer_instance

/-- The decimal digit character for `n % 10`-style values below ten. -/
def natDigitChar : Nat → Char
  | 0 => '0' | 1 => '1' | 2 => '2' | 3 => '3' | 4 => '4'
  | 5 => '5' | 6 => '6' | 7 => '7' | 8 => '8' | _ => '9'

/-- Fuel-driven digit expansion (structural, so the kernel can evaluate it;
`natDigits` supplies enough fuel). -/
def natDigitsAux : Nat → Nat → List Char
  | 0, _ => []
  | fuel + 1, n =>
    if n < 10 then [natDigitChar n]
    else natDigitsAux fuel (n / 10) ++ [natDigitChar (n % 10)]

/-- Decimal rendering of a natural number, Python's `str(n)` / f-string
interpolation of a non-negative int. -/
def natDigits (n : Nat) : List Char := natDigitsAux (n + 1) n

theorem natDigitsAux_irrel :
    ∀ f1, ∀ {n : Nat}, ∀ f2, n < f1 → n < f2 →
      natDigitsAux f1 n = natDigitsAux f2 n := by
  intro f1
  induction f1 using Nat.strong_induction_on with
  | _ f1 ih =>
    intro n f2 h1 h2
    cases f1 with
    | zero => omega
    | succ g1 =>
      cases f2 with
      | zero => omega
      | succ g2 =>
        simp only [natDigitsAux]
        split
        · rfl
        · rename_i hge
          have hdiv : n / 10 < n := Nat.div_lt_self (by omega) (by omega)
          have hle : n / 10 < g1 := by omega
          have hle2 : n / 10 < g2 := by omega
          rw [ih g1 (Nat.lt_succ_self g1) g2 hle hle2]

theorem natDigits_unfold (n : Nat) :
    natDigits n = if n < 10 then [natDigitChar n]
      else natDigits (n / 10) ++ [natDigitChar (n % 10)] := by
  by_cases h : n < 10
  · rw [if_pos h]
    simp [natDigits, natDigitsAux, h]
  · rw [if_neg h]
    show natDigitsAux (n + 1) n = natDigitsAux (n / 10 + 1) (n / 10) ++ [natDigitChar (n % 10)]
    have hdiv : n / 10 < n := Nat.div_lt_self (by omega) (by omega)
    conv_lhs => rw [show natDigitsAux (n + 1) n
      = natDigitsAux n (n / 10) ++ [natDigitChar (n % 10)] from by simp [natDigitsAux, h]]
    rw [natDigitsAux_irrel n (n / 10 + 1) hdiv (Nat.lt_succ_self _)]

/-- Numeric value of a digit character. -/
def digitVal (c : Char) : Nat := c.toNat - 48

/-- Value of a string of decimal digits. -/
def digitsToNat (l : List Char) : Nat := l.foldl (fun a c => 10 * a + digitVal c) 0

/-- After an initial digit, Python's `int()` accepts digits with single
underscores strictly between digits. -/
def pyIntRest : List Char → Bool
  | [] => true
  | '_' :: rest =>
    match rest with
    | [] => false
    | c :: _ => isDig c && pyIntRest rest
  | c :: rest => isDig c && pyIntRest rest

/-- Python's `int(s)` on the `\d+` / `\w+` captures that the URL generator
produces: `some` value on digit strings (with underscore grouping), `none`
models the `ValueError` raised on anything else. -/
def pyInt? (l : List Char) : Option Nat :=
  match l with
  | [] => none
  | c :: rest =>
    if isDig c && pyIntRest rest then some (digitsToNat (List.filter isDig (c :: rest)))
    else none

@[simp] theorem digitVal_natDigitChar {d : Nat} (h : d < 10) :
    digitVal (natDigitChar d) = d := by
  interval_cases d <;> decide

@[simp] theorem isDig_natDigitChar {d : Nat} (h : d < 10) :
    isDig (natDigitChar d) = true := by
  interval_cases d <;> decide

theorem natDigits_ne_nil (n : Nat) : natDigits n ≠ [] := by
  rw [natDigits_unfold]
  split
  · simp
  · simp

theorem natDigits_all_dig (n : Nat) : ∀ c ∈ natDigits n, isDig c = true := by
  induction n using Nat.strong_induction_on with
  | _ n ih =>
    rw [natDigits_unfold]
    split
    · intro c hc
      simp only [List.mem_singleton] at hc
      subst hc
      exact isDig_natDigitChar (by omega)
    · intro c hc
      rename_i h
      rw [List.mem_append] at hc
      rcases hc with hc | hc
      · exact ih (n / 10) (Nat.div_lt_self (by omega) (by omega)) c hc
      · simp only [List.mem_singleton] at hc
        subst hc
        exact isDig_natDigitChar (Nat.mod_lt _ (by omega))

theorem digitsToNat_append (a b : List Char) :
    digitsToNat (a ++ b) = b.foldl (fun x c => 10 * x + digitVal c) (digitsToNat a) := by
  simp [digitsToNat, List.foldl_append]

theorem digitsToNat_natDigits (n : Nat) : digitsToNat (natDigits n) = n := by
  induction n using Nat.strong_induction_on with
  | _ n ih =>
    rw [natDigits_unfold]
    split
    · rename_i h
      simp [digitsToNat, digitVal_natDigitChar h]
    · rename_i h
      rw [digitsToNat_append, ih (n / 10) (Nat.div_lt_self (by omega) (by omega))]
      simp only [List.foldl_cons, List.foldl_nil,
        digitVal_natDigitChar (Nat.mod_lt _ (by omega : (0:Nat) < 10))]
      omega

theorem pyIntRest_of_digits {l : List Char} (h : ∀ c ∈ l, isDig c = true) :
    pyIntRest l = true := by
  induction l with
  | nil => rfl
  | cons c rest ih =>
    have hc := h c (List.mem_cons_self c rest)
    have hrest := ih (fun x hx => h x (List.mem_cons_of_mem c hx))
    unfold pyIntRest
    split
    · rfl
    · rename_i rest2 heq
      cases heq
      exact absurd hc (by decide)
    · rename_i c2 rest2 hne heq
      cases heq
      simp [hc, hrest]

/-- `int()` on a non-empty all-digit capture yields its decimal value. -/
theorem pyInt_digits {l : List Char} (hne : l ≠ []) (h : ∀ c ∈ l, isDig c = true) :
    pyInt? l = some (digitsToNat l) := by
  cases l with
  | nil => exact absurd rfl hne
  | cons c rest =>
    have hc := h c (List.mem_cons_self c rest)
    have hrest : pyIntRest rest = true :=
      pyIntRest_of_digits (fun x hx => h x (List.mem_cons_of_mem c hx))
    simp only [pyInt?, hc, hrest, Bool.and_self, if_pos]
    rw [List.filter_eq_self.mpr h]

theorem pyLower_of_dig {c : Char} (h : isDig c = true) : pyLower c = c := by
  simp only [isDig, Bool.and_eq_true, decide_eq_true_eq] at h
  simp only [pyLower, ite_eq_right_iff]
  intro hc
  omega

theorem lowerFixed_natDigits (n : Nat) : lowerFixed (natDigits n) := by
  unfold lowerFixed
  rw [List.map_congr_left (fun c hc => pyLower_of_dig (natDigits_all_dig n c hc)),
    List.map_id']

theorem lowerFixed_append {a b : List Char} (ha : lowerFixed a) (hb : lowerFixed b) :
    lowerFixed (a ++ b) := by
  unfold lowerFixed at *
  simp [ha, hb]

theorem lowerFixed_append_iff {a b : List Char} :
    lowerFixed (a ++ b) ↔ lowerFixed a ∧ lowerFixed b := by
  unfold lowerFixed
  simp only [List.map_append]
  constructor
  · intro h
    exact ⟨List.append_inj_left h (by simp), List.append_inj_right h (by simp)⟩
  · intro ⟨h1, h2⟩
    rw [h1, h2]

end PyStr

namespace URLGenerator

open PyStr

/-!
## `backend/url_generator.py`

Each regular expression in `URLGenerator.PATTERNS` that ends in a `(\d+)`
capture is represented as a list of character alternatives followed by an
implicit non-empty maximal digit run: `[?&]page=(\d+)` becomes
`[['?','&'], ['p'], ['a'], ['g'], ['e'], ['=']]` plus the digit capture.
`re.search` on such a pattern is the leftmost position where the alternatives
match and at least one digit follows; the capture is the maximal digit run
(greedy `\d+` with nothing after it in these patterns).
-/

/-- `r'[?&]page=(\d+)'` (`query_page`). -/
def patQueryPage : List (List Char) :=
  [['?', '&'], ['p'], ['a'], ['g'], ['e'], ['=']]

/-- `r'[?&]p=(\d+)'` (`query_p`). -/
def patQueryP : List (List Char) := [['?', '&'], ['p'], ['=']]

/-- `r'[?&]offset=(\d+)'` (`query_offset`). -/
def patQueryOffset : List (List Char) :=
  [['?', '&'], ['o'], ['f'], ['f'], ['s'], ['e'], ['t'], ['=']]

/-- `r'[?&]start=(\d+)'` (`query_start`). -/
def patQueryStart : List (List Char) :=
  [['?', '&'], ['s'], ['t'], ['a'], ['r'], ['t'], ['=']]

/-- `r'/page[∕-](\d+)'` (slash written big here; `path_page`). -/
def patPathPage : List (List Char) :=
  [['/'], ['p'], ['a'], ['g'], ['e'], ['/', '-']]

/-- `r'/p/(\d+)'` (`path_p`). -/
def patPathP : List (List Char) := [['/'], ['p'], ['/']]

/-- `r'/products/page[∕-](\d+)'` (slash written big here; `path_products`). -/
def patPathProducts : List (List Char) :=
  [['/'], ['p'], ['r'], ['o'], ['d'], ['u'], ['c'], ['t'], ['s'],
   ['/'], ['p'], ['a'], ['g'], ['e'], ['/', '-']]

/-- Match the alternative lists of a pattern against the beginning of `s`,
returning the consumed characters and the remainder. -/
def matchSets : List (List Char) → List Char → Option (List Char × List Char)
  | [], s => some ([], s)
  | _ :: _, [] => none
  | cs :: pat, c :: s =>
    if c ∈ cs then (matchSets pat s).map (fun pr => (c :: pr.1, pr.2)) else none

/-- Match a pattern plus its trailing `(\d+)` capture at the beginning of `s`:
returns (consumed pattern text, captured digits, rest after the digits). -/
def matchCap (pat : List (List Char)) (s : List Char) :
    Option (List Char × List Char × List Char) :=
  match matchSets pat s with
  | none => none
  | some (pre, r) =>
    let d := r.takeWhile isDig
    if d = [] then none else some (pre, d, r.drop d.length)

/-- `re.search` for a `pattern(\d+)` regex: leftmost match, returning the digit
capture. -/
def searchPat (pat : List (List Char)) : List Char → Option (List Char)
  | [] => none
  | c :: s =>
    match matchCap pat (c :: s) with
    | some pdr => some pdr.2.1
    | none => searchPat pat s

/-- `re.search(r'[?&](\w+)=(\d+)', s)` (the `query_custom` catch-all):
leftmost `[?&]`, then a maximal non-empty `\w+` run, `=`, and a non-empty
digit run; returns both captures. -/
def searchCustom : List Char → Option (List Char × List Char)
  | [] => none
  | c :: s =>
    if c = '?' ∨ c = '&' then
      let w := s.takeWhile isWordChar
      match s.drop w.length with
      | '=' :: rest =>
        let d := rest.takeWhile isDig
        if w ≠ [] ∧ d ≠ [] then some (w, d) else searchCustom s
      | _ => searchCustom s
    else searchCustom s

/-- The result dictionary of `URLGenerator.detect_pattern`. -/
structure PatternInfo where
  patternType : List Char
  currentPage : Nat
  matchGroups : List (List Char)
deriving DecidableEq, Repr

/-- The key `'query_page'` of `URLGenerator.PATTERNS`. -/
def tyQueryPage : List Char := 'q' :: 'u' :: 'e' :: 'r' :: 'y' :: '_' :: 'p' :: 'a' :: 'g' :: 'e' ::[]

/-- The key `'query_p'`. -/
def tyQueryP : List Char := 'q' :: 'u' :: 'e' :: 'r' :: 'y' :: '_' :: 'p' ::[]

/-- The key `'query_offset'`. -/
def tyQueryOffset : List Char := 'q' :: 'u' :: 'e' :: 'r' :: 'y' :: '_' :: 'o' :: 'f' :: 'f' :: 's' :: 'e' :: 't' ::[]

/-- The key `'query_start'`. -/
def tyQueryStart : List Char := 'q' :: 'u' :: 'e' :: 'r' :: 'y' :: '_' :: 's' :: 't' :: 'a' :: 'r' :: 't' ::[]

/-- The key `'path_page'`. -/
def tyPathPage : List Char := 'p' :: 'a' :: 't' :: 'h' :: '_' :: 'p' :: 'a' :: 'g' :: 'e' ::[]

/-- The key `'path_p'`. -/
def tyPathP : List Char := 'p' :: 'a' :: 't' :: 'h' :: '_' :: 'p' ::[]

/-- The key `'path_products'`. -/
def tyPathProducts : List Char :=
  'p' :: 'a' :: 't' :: 'h' :: '_' :: 'p' :: 'r' :: 'o' :: 'd' :: 'u' :: 'c' :: 't' :: 's' ::[]

/-- The key `'query_custom'`. -/
def tyQueryCustom : List Char := 'q' :: 'u' :: 'e' :: 'r' :: 'y' :: '_' :: 'c' :: 'u' :: 's' :: 't' :: 'o' :: 'm' ::[]

/-- The fallback kind `'unknown'`. -/
def tyUnknown : List Char := 'u' :: 'n' :: 'k' :: 'n' :: 'o' :: 'w' :: 'n' ::[]

/-- `URLGenerator.detect_pattern(url)`.  The source lowercases the URL, tries
the eight `PATTERNS` in insertion order, and on a match returns
`int(match.group(1))` as `current_page`.  Group 1 of `query_custom` is the
*parameter name* (`\w+`), so `int` can raise `ValueError` there; the raised
exception is modelled by `none`. -/
def detect_pattern (url : List Char) : Option PatternInfo :=
  let low := url.map pyLower
  match searchPat patQueryPage low with
  | some d => (pyInt? d).map (fun n => ⟨tyQueryPage, n, [d]⟩)
  | none =>
  match searchPat patQueryP low with
  | some d => (pyInt? d).map (fun n => ⟨tyQueryP, n, [d]⟩)
  | none =>
  match searchPat patQueryOffset low with
  | some d => (pyInt? d).map (fun n => ⟨tyQueryOffset, n, [d]⟩)
  | none =>
  match searchPat patQueryStart low with
  | some d => (pyInt? d).map (fun n => ⟨tyQueryStart, n, [d]⟩)
  | none =>
  match searchPat patPathPage low with
  | some d => (pyInt? d).map (fun n => ⟨tyPathPage, n, [d]⟩)
  | none =>
  match searchPat patPathP low with
  | some d => (pyInt? d).map (fun n => ⟨tyPathP, n, [d]⟩)
  | none =>
  match searchPat patPathProducts low with
  | some d => (pyInt? d).map (fun n => ⟨tyPathProducts, n, [d]⟩)
  | none =>
  match searchCustom low with
  | some (w, d) => (pyInt? w).map (fun n => ⟨tyQueryCustom, n, [w, d]⟩)
  | none => some ⟨tyUnknown, 1, []⟩

/-- Python's substring test `needle in hay`. -/
def substringContains (needle : List Char) : List Char → Bool
  | [] => needle.isEmpty
  | c :: t => needle.isPrefixOf (c :: t) || substringContains needle t

theorem matchSets_some {pat : List (List Char)} {s pre r : List Char}
    (h : matchSets pat s = some (pre, r)) :
    s = pre ++ r ∧ List.Forall₂ (fun c cs => c ∈ cs) pre pat := by
  induction pat generalizing s pre r with
  | nil =>
    simp only [matchSets, Option.some_inj, Prod.mk.injEq] at h
    obtain ⟨h1, h2⟩ := h
    subst h1
    subst h2
    exact ⟨rfl, List.Forall₂.nil⟩
  | cons cs pat ih =>
    cases s with
    | nil => simp [matchSets] at h
    | cons c s =>
      simp only [matchSets] at h
      split at h
      · rename_i hmem
        cases hm : matchSets pat s with
        | none => rw [hm] at h; simp at h
        | some pr =>
          rw [hm] at h
          obtain ⟨pre2, r2⟩ := pr
          simp only [Option.map_some', Option.some_inj, Prod.mk.injEq] at h
          obtain ⟨h1, h2⟩ := h
          subst h1
          subst h2
          obtain ⟨he, hf⟩ := ih hm
          exact ⟨by simp [he], List.Forall₂.cons hmem hf⟩
      · simp at h

theorem matchSets_complete {pat : List (List Char)} {pre : List Char}
    (hf : List.Forall₂ (fun c cs => c ∈ cs) pre pat) (r : List Char) :
    matchSets pat (pre ++ r) = some (pre, r) := by
  induction hf with
  | nil => simp [matchSets]
  | cons hmem _ ih =>
    rename_i c cs pre2 pat2 _
    simp [matchSets, hmem, ih]

/-- The rest returned by a successful `matchCap` is strictly shorter. -/
theorem matchCap_some_length {pat : List (List Char)}
    {s : List Char} {pdr : List Char × List Char × List Char}
    (h : matchCap pat s = some pdr) : pdr.2.2.length < s.length := by
  unfold matchCap at h
  cases hm : matchSets pat s with
  | none => rw [hm] at h; simp at h
  | some pr =>
    rw [hm] at h
    obtain ⟨pre, r⟩ := pr
    simp only at h
    split at h
    · simp at h
    · rename_i hd
      simp only [Option.some_inj] at h
      cases h.symm
      simp only
      have hsr := (matchSets_some hm).1
      have hr : r.length ≤ s.length := by
        rw [hsr]; simp
      have htw : (r.takeWhile isDig).length ≠ 0 := by
        simpa [List.length_eq_zero] using hd
      have := (List.takeWhile_prefix (l := r) isDig).length_le
      rw [List.length_drop]
      omega

/-- Fuel-driven body of `subPat` (structural, so the kernel can evaluate it;
one character is consumed per step, so the string's length is enough fuel). -/
def subPatAux (pat : List (List Char)) (rep : List Char → List Char) :
    Nat → List Char → List Char
  | _, [] => []
  | 0, s => s
  | fuel + 1, c :: s =>
    match matchCap pat (c :: s) with
    | some pdr => rep pdr.1 ++ subPatAux pat rep fuel pdr.2.2
    | none => c :: subPatAux pat rep fuel s

/-- `re.sub` on a `pattern\d+` regex: every non-overlapping occurrence of the
pattern followed by a maximal digit run is replaced by `rep` applied to the
matched pattern text (the sub regexes of `generate_next_url` either keep the
matched text via `\g<1>` or replace it by a constant). -/
def subPat (pat : List (List Char)) (rep : List Char → List Char)
    (s : List Char) : List Char :=
  subPatAux pat rep s.length s

theorem subPatAux_irrel {pat : List (List Char)} {rep : List Char → List Char} :
    ∀ f1, ∀ {s : List Char}, ∀ f2, s.length ≤ f1 → s.length ≤ f2 →
      subPatAux pat rep f1 s = subPatAux pat rep f2 s := by
  intro f1
  induction f1 using Nat.strong_induction_on with
  | _ f1 ih =>
    intro s f2 h1 h2
    cases s with
    | nil =>
      cases f1 <;> cases f2 <;> rfl
    | cons c s2 =>
      simp only [List.length_cons] at h1 h2
      cases f1 with
      | zero => omega
      | succ g1 =>
        cases f2 with
        | zero => omega
        | succ g2 =>
          simp only [subPatAux]
          cases h : matchCap pat (c :: s2) with
          | some pdr =>
            have hlen := matchCap_some_length h
            simp only [List.length_cons] at hlen
            dsimp only
            rw [ih g1 (Nat.lt_succ_self g1) g2 (by omega) (by omega)]
          | none =>
            dsimp only
            rw [ih g1 (Nat.lt_succ_self g1) g2 (by omega) (by omega)]

theorem subPat_nil (pat : List (List Char)) (rep : List Char → List Char) :
    subPat pat rep [] = [] := rfl

theorem subPat_cons_some {pat : List (List Char)} {rep : List Char → List Char}
    {c : Char} {s pre d rest : List Char}
    (h : matchCap pat (c :: s) = some (pre, d, rest)) :
    subPat pat rep (c :: s) = rep pre ++ subPat pat rep rest := by
  have hlen := matchCap_some_length h
  simp only [List.length_cons] at hlen
  show subPatAux pat rep (s.length + 1) (c :: s) = rep pre ++ subPatAux pat rep rest.length rest
  simp only [subPatAux, h]
  rw [subPatAux_irrel s.length rest.length (by omega) le_rfl]

theorem subPat_cons_none {pat : List (List Char)} {rep : List Char → List Char}
    {c : Char} {s : List Char} (h : matchCap pat (c :: s) = none) :
    subPat pat rep (c :: s) = c :: subPat pat rep s := by
  show subPatAux pat rep (s.length + 1) (c :: s) = c :: subPatAux pat rep s.length s
  simp only [subPatAux, h]

/-- `r'([?&]<param>=)\d+'`, the sub pattern built for a query parameter. -/
def mkQueryPat (param : List Char) : List (List Char) :=
  ['?', '&'] :: (param ++ ['=']).map (fun c => [c])

/-- The body of `URLGenerator.generate_next_url` once `pattern_info` is known.
The branch conditions mirror the Python `'query_page' in pattern_type or
pattern_type == 'query_page'` tests (substring containment, so `path_products`
is captured by the earlier `path_p` branch, as in the source).  The query subs
keep the matched group and rewrite the digits; the path subs rewrite the whole
match; `offset`/`start` write `(n-1)*20`.  `next_page_number` is modelled as a
natural number — the services only pass page numbers `≥ 1`. -/
def generate_with_info (url : List Char) (n : Nat) (info : PatternInfo) : List Char :=
  let ty := info.patternType
  if substringContains tyQueryPage ty || ty == tyQueryPage then
    subPat patQueryPage (fun pre => pre ++ natDigits n) url
  else if substringContains tyQueryP ty || ty == tyQueryP then
    subPat patQueryP (fun pre => pre ++ natDigits n) url
  else if substringContains tyQueryOffset ty || ty == tyQueryOffset then
    subPat patQueryOffset (fun pre => pre ++ natDigits ((n - 1) * 20)) url
  else if substringContains tyQueryStart ty || ty == tyQueryStart then
    subPat patQueryStart (fun pre => pre ++ natDigits ((n - 1) * 20)) url
  else if substringContains tyPathPage ty || ty == tyPathPage then
    subPat patPathPage (fun _ => ('/' :: 'p' :: 'a' :: 'g' :: 'e' :: '-' ::[]) ++ natDigits n) url
  else if substringContains tyPathP ty || ty == tyPathP then
    subPat patPathP (fun _ => ('/' :: 'p' :: '/' ::[]) ++ natDigits n) url
  else if substringContains tyPathProducts ty || ty == tyPathProducts then
    subPat patPathProducts
      (fun _ => ('/' :: 'p' :: 'r' :: 'o' :: 'd' :: 'u' :: 'c' :: 't' :: 's' :: '/' :: 'p' :: 'a' :: 'g' :: 'e' :: '-' ::[])
        ++ natDigits n) url
  else if ty == tyQueryCustom then
    match info.matchGroups with
    | w :: _ => subPat (mkQueryPat w) (fun pre => pre ++ natDigits n) url
    | [] => url
  else
    let r1 := subPat patQueryPage (fun pre => pre ++ natDigits n) url
    if r1 ≠ url then r1
    else
      let r2 := subPat patQueryP (fun pre => pre ++ natDigits n) url
      if r2 ≠ url then r2
      else
        url ++ (if url.contains '?' then ['&'] else ['?'])
          ++ ('p' :: 'a' :: 'g' :: 'e' :: '=' ::[]) ++ natDigits n

/-- `URLGenerator.generate_next_url(url, next_page_number)` with the default
`pattern_info=None`: the pattern is detected first (outside the `try` block,
so a `ValueError` from `detect_pattern` propagates — modelled by `none`). -/
def generate_next_url (url : List Char) (n : Nat) : Option (List Char) :=
  (detect_pattern url).map (generate_with_info url n)

/-!
### Round-trip machinery

`re.sub` only rewrites maximal digit runs (and, for the path kinds, may turn a
`/` separator into `-`).  The relation `SubShape s t` captures exactly this
"same skeleton" connection between the original string and the substituted
one; under it, matches of the digit-free patterns above can only disappear,
never appear, which gives the preservation lemmas the round-trip proof needs.
-/

/-- Characters related by a substitution: unchanged, or the `path` separator
rewritten from `/` to `-`. -/
def chStep (c c' : Char) : Prop := c = c' ∨ (c = '/' ∧ c' = '-')

/-- `SubShape s t`: `t` is `s` with some non-empty maximal digit runs replaced
by other non-empty digit runs and some `/` characters replaced by `-`. -/
inductive SubShape : List Char → List Char → Prop
  | nil : SubShape [] []
  | chr {c c' : Char} {s t : List Char} :
      chStep c c' → SubShape s t → SubShape (c :: s) (c' :: t)
  | run {d e s t : List Char} :
      d ≠ [] → e ≠ [] → (∀ x ∈ d, isDig x = true) → (∀ x ∈ e, isDig x = true) →
      SubShape s t → SubShape (d ++ s) (e ++ t)

/-- A well-behaved pattern: non-empty, digit-free, and closed under undoing
the `/`→`-` rewrite. -/
def GoodPat (pat : List (List Char)) : Prop :=
  pat ≠ [] ∧ (∀ cs ∈ pat, ∀ c ∈ cs, isDig c = false) ∧
    (∀ cs ∈ pat, '-' ∈ cs → '/' ∈ cs)

instance (pat : List (List Char)) : Decidable (GoodPat pat) := by
  unfold GoodPat; infer_instance

theorem chStep_isDig {c c' : Char} (h : chStep c c') : isDig c = isDig c' := by
  rcases h with rfl | ⟨rfl, rfl⟩
  · rfl
  · decide

theorem chStep_refl (c : Char) : chStep c c := Or.inl rfl

theorem forall₂_chStep_refl (l : List Char) : List.Forall₂ chStep l l := by
  induction l with
  | nil => exact List.Forall₂.nil
  | cons c t ih => exact List.Forall₂.cons (chStep_refl c) ih

theorem chStep_mem {cs : List Char} {c c' : Char} (hcl : '-' ∈ cs → '/' ∈ cs)
    (hst : chStep c c') (hmem : c' ∈ cs) : c ∈ cs := by
  rcases hst with rfl | ⟨rfl, rfl⟩
  · exact hmem
  · exact hcl hmem

/-- A head digit of the substituted string comes from a head digit of the
original. -/
theorem SubShape.head_dig {s t : List Char} (hss : SubShape s t) :
    ∀ y ys, t = y :: ys → isDig y = true →
      ∃ x xs, s = x :: xs ∧ isDig x = true := by
  induction hss with
  | nil =>
    intro y ys ht _
    cases ht
  | @chr c c' s2 t2 hst _ _ =>
    intro y ys ht hy
    injection ht with h1 _
    subst h1
    exact ⟨c, s2, rfl, by rw [chStep_isDig hst, hy]⟩
  | @run d e s2 t2 hd _ hdd _ _ _ =>
    intro y ys _ _
    cases d with
    | nil => exact absurd rfl hd
    | cons x xs => exact ⟨x, xs ++ s2, rfl, hdd x (List.mem_cons_self x xs)⟩

/-- Matches of a good pattern in the substituted string map back to matches in
the original. -/
theorem back_matchSets {s t : List Char} (hss : SubShape s t) :
    ∀ (pat : List (List Char)) (pre2 r2 : List Char),
      (∀ cs ∈ pat, ∀ c ∈ cs, isDig c = false) →
      (∀ cs ∈ pat, '-' ∈ cs → '/' ∈ cs) →
      matchSets pat t = some (pre2, r2) →
      ∃ pre r, matchSets pat s = some (pre, r) ∧ SubShape r r2 := by
  induction hss with
  | nil =>
    intro pat pre2 r2 _ _ hm
    cases pat with
    | nil =>
      simp only [matchSets, Option.some_inj, Prod.mk.injEq] at hm
      exact ⟨[], [], rfl, hm.2 ▸ SubShape.nil⟩
    | cons cs pat2 => simp [matchSets] at hm
  | @chr c c' s2 t2 hst htail ih =>
    intro pat pre2 r2 hdf hcl hm
    cases pat with
    | nil =>
      simp only [matchSets, Option.some_inj, Prod.mk.injEq] at hm
      exact ⟨[], c :: s2, rfl, hm.2 ▸ SubShape.chr hst htail⟩
    | cons cs pat2 =>
      simp only [matchSets] at hm
      split at hm
      · rename_i hymem
        cases hm2 : matchSets pat2 t2 with
        | none => rw [hm2] at hm; simp at hm
        | some pr =>
          rw [hm2] at hm
          obtain ⟨preb, rb⟩ := pr
          simp only [Option.map_some', Option.some_inj, Prod.mk.injEq] at hm
          obtain ⟨h1, h2⟩ := hm
          subst h1
          subst h2
          have hcm : c ∈ cs :=
            chStep_mem (hcl cs (List.mem_cons_self cs pat2)) hst hymem
          obtain ⟨pre3, r3, hm3, hss3⟩ := ih pat2 preb rb
            (fun u hu => hdf u (List.mem_cons_of_mem cs hu))
            (fun u hu => hcl u (List.mem_cons_of_mem cs hu)) hm2
          refine ⟨c :: pre3, r3, ?_, hss3⟩
          simp [matchSets, hcm, hm3]
      · simp at hm
  | @run d e s2 t2 hd he hdd hde htail _ =>
    intro pat pre2 r2 hdf _ hm
    cases pat with
    | nil =>
      simp only [matchSets, Option.some_inj, Prod.mk.injEq] at hm
      exact ⟨[], d ++ s2, rfl, hm.2 ▸ SubShape.run hd he hdd hde htail⟩
    | cons cs pat2 =>
      cases e with
      | nil => exact absurd rfl he
      | cons e0 e2 =>
        have he0 : isDig e0 = true := hde e0 (List.mem_cons_self e0 e2)
        have hnm : e0 ∉ cs := by
          intro hmem
          have := hdf cs (List.mem_cons_self cs pat2) e0 hmem
          rw [he0] at this
          cases this
        simp [matchSets, hnm] at hm

/-- A successful capture match in the substituted string maps back. -/
theorem back_matchCap {pat : List (List Char)} {s t : List Char}
    (hgp : GoodPat pat) (hss : SubShape s t)
    (hm : (matchCap pat t).isSome = true) : (matchCap pat s).isSome = true := by
  obtain ⟨-, hdf, hcl⟩ := hgp
  unfold matchCap at hm ⊢
  cases hmt : matchSets pat t with
  | none => rw [hmt] at hm; simp at hm
  | some pr =>
    rw [hmt] at hm
    obtain ⟨pre2, r2⟩ := pr
    simp only at hm
    split at hm
    · simp at hm
    · rename_i hd2
      obtain ⟨pre, r, hms, hssr⟩ := back_matchSets hss _ _ _ hdf hcl hmt
      rw [hms]
      simp only
      have : r.takeWhile isDig ≠ [] := by
        cases hr2 : r2 with
        | nil => rw [hr2] at hd2; simp at hd2
        | cons y ys =>
          rw [hr2] at hd2
          by_cases hy : isDig y = true
          · obtain ⟨x, xs, hx, hxd⟩ := hssr.head_dig y ys hr2 hy
            rw [hx, List.takeWhile_cons_of_pos hxd]
            simp
          · rw [List.takeWhile_cons_of_neg (by simpa using hy)] at hd2
            exact absurd rfl hd2
      rw [if_neg this]
      rfl

theorem searchPat_cons_isSome {pat : List (List Char)} {s : List Char} {c : Char}
    (h : (searchPat pat s).isSome = true) :
    (searchPat pat (c :: s)).isSome = true := by
  simp only [searchPat]
  split
  · rfl
  · exact h

theorem searchPat_append_isSome {pat : List (List Char)} {s : List Char}
    (d : List Char) (h : (searchPat pat s).isSome = true) :
    (searchPat pat (d ++ s)).isSome = true := by
  induction d with
  | nil => exact h
  | cons c t ih => exact searchPat_cons_isSome ih

/-- A non-empty digit-free pattern cannot match at a digit character, so a
search can skip over a digit run. -/
theorem searchPat_skip_digits {pat : List (List Char)} {s : List Char}
    (hne : pat ≠ []) (hdf : ∀ cs ∈ pat, ∀ c ∈ cs, isDig c = false)
    {e : List Char} (hde : ∀ x ∈ e, isDig x = true)
    (h : (searchPat pat (e ++ s)).isSome = true) :
    (searchPat pat s).isSome = true := by
  induction e with
  | nil => exact h
  | cons y e2 ih =>
    have hy : isDig y = true := hde y (List.mem_cons_self y e2)
    cases pat with
    | nil => exact absurd rfl hne
    | cons cs pat2 =>
      have hnm : matchCap (cs :: pat2) (y :: (e2 ++ s)) = none := by
        have : y ∉ cs := by
          intro hmem
          have := hdf cs (List.mem_cons_self cs pat2) y hmem
          rw [hy] at this
          cases this
        simp [matchCap, matchSets, this]
      rw [List.cons_append] at h
      unfold searchPat at h
      rw [hnm] at h
      simp only [Option.isSome] at h
      exact ih (fun x hx => hde x (List.mem_cons_of_mem y hx)) h

/-- Backward preservation of search success under substitution shape. -/
theorem back_searchPat {pat : List (List Char)} {s t : List Char}
    (hgp : GoodPat pat) (hss : SubShape s t)
    (h : (searchPat pat t).isSome = true) : (searchPat pat s).isSome = true := by
  induction hss with
  | nil => simp [searchPat] at h
  | @chr c c' s2 t2 hst htail ih =>
    simp only [searchPat] at h
    split at h
    · rename_i pdr heq
      have : (matchCap pat (c :: s2)).isSome = true :=
        back_matchCap hgp (SubShape.chr hst htail) (by rw [heq]; rfl)
      cases hms : matchCap pat (c :: s2) with
      | none => rw [hms] at this; cases this
      | some pdr2 => simp [searchPat, hms]
    · exact searchPat_cons_isSome (ih h)
  | @run d e s2 t2 hd he hdd hde htail ih =>
    have h2 := searchPat_skip_digits hgp.1 hgp.2.1 hde h
    exact searchPat_append_isSome d (ih h2)

/-- Forward preservation of search failure under substitution shape. -/
theorem sub_searchPat_none {pat : List (List Char)} {s t : List Char}
    (hgp : GoodPat pat) (hss : SubShape s t)
    (h : searchPat pat s = none) : searchPat pat t = none := by
  cases hst : searchPat pat t with
  | none => rfl
  | some d =>
    have := back_searchPat hgp hss (by rw [hst]; rfl)
    rw [h] at this
    cases this

/-- The head of `l`, if any, is not a digit. -/
def headNd (l : List Char) : Prop := ∀ y ys, l = y :: ys → isDig y = false

theorem headNd_nil : headNd [] := by
  intro y ys h
  cases h

theorem drop_length_takeWhile (p : Char → Bool) (l : List Char) :
    l.drop (l.takeWhile p).length = l.dropWhile p := by
  induction l with
  | nil => rfl
  | cons c t ih =>
    by_cases h : p c = true
    · rw [List.takeWhile_cons_of_pos h, List.dropWhile_cons_of_pos h]
      simpa using ih
    · rw [List.takeWhile_cons_of_neg h, List.dropWhile_cons_of_neg h]
      rfl

/-- Full description of a successful capture match. -/
theorem matchCap_decomp {pat : List (List Char)} {s pre d rest : List Char}
    (h : matchCap pat s = some (pre, d, rest)) :
    s = pre ++ d ++ rest ∧ List.Forall₂ (fun c cs => c ∈ cs) pre pat ∧ d ≠ [] ∧
      (∀ x ∈ d, isDig x = true) ∧ headNd rest := by
  unfold matchCap at h
  cases hm : matchSets pat s with
  | none => rw [hm] at h; cases h
  | some pr =>
    rw [hm] at h
    obtain ⟨pre1, r⟩ := pr
    simp only at h
    split at h
    · cases h
    · rename_i hdne
      simp only [Option.some_inj, Prod.mk.injEq] at h
      obtain ⟨h1, h2, h3⟩ := h
      subst h1
      subst h2
      subst h3
      obtain ⟨hs, hf⟩ := matchSets_some hm
      refine ⟨?_, hf, hdne, fun x hx => List.mem_takeWhile_imp hx, ?_⟩
      · rw [hs, drop_length_takeWhile, List.append_assoc,
          List.takeWhile_append_dropWhile]
      · rw [drop_length_takeWhile]
        intro y ys hy
        have := List.head?_dropWhile_not isDig r
        rw [hy] at this
        simpa using this

/-- Replacement description used by the positive round-trip lemma: on every
text the pattern can match, `rep` yields some pattern-matching text followed
by the fixed digit string `nd`. -/
def RepDigN (pat : List (List Char)) (rep : List Char → List Char)
    (nd : List Char) : Prop :=
  nd ≠ [] ∧ (∀ x ∈ nd, isDig x = true) ∧
    ∀ pre, List.Forall₂ (fun c cs => c ∈ cs) pre pat →
      ∃ pre2, rep pre = pre2 ++ nd ∧
        List.Forall₂ (fun c cs => c ∈ cs) pre2 pat ∧
        List.Forall₂ chStep pre pre2

/-- The replacement `\g<1>{n}` of the query-kind subs keeps the matched text
and appends the decimal digits. -/
theorem repDigN_keep (pat : List (List Char)) (m : Nat) :
    RepDigN pat (fun pre => pre ++ natDigits m) (natDigits m) :=
  ⟨natDigits_ne_nil m, natDigits_all_dig m,
    fun pre hpre => ⟨pre, rfl, hpre, forall₂_chStep_refl pre⟩⟩

theorem forall₂_chStep_subshape {p p2 x y : List Char}
    (hf : List.Forall₂ chStep p p2) (hxy : SubShape x y) :
    SubShape (p ++ x) (p2 ++ y) := by
  induction hf with
  | nil => exact hxy
  | cons hst _ ih => exact SubShape.chr hst ih

/-- Every string is `SubShape`-related to its substitution. -/
theorem subshape_subPat {pat : List (List Char)} {rep : List Char → List Char}
    {nd : List Char} (hrep : RepDigN pat rep nd) :
    ∀ s, SubShape s (subPat pat rep s) := by
  have H : ∀ n s, s.length ≤ n → SubShape s (subPat pat rep s) := by
    intro n
    induction n with
    | zero =>
      intro s hs
      have : s = [] := List.eq_nil_of_length_eq_zero (by omega)
      subst this
      rw [subPat_nil]
      exact SubShape.nil
    | succ n ih =>
      intro s hs
      cases s with
      | nil =>
        rw [subPat_nil]
        exact SubShape.nil
      | cons c s2 =>
        cases h : matchCap pat (c :: s2) with
        | none =>
          rw [subPat_cons_none h]
          exact SubShape.chr (chStep_refl c)
            (ih s2 (by simpa using Nat.le_of_succ_le_succ hs))
        | some pdr =>
          obtain ⟨pre, d, rest⟩ := pdr
          rw [subPat_cons_some h]
          obtain ⟨hdec, hf, hdne, hdd, -⟩ := matchCap_decomp h
          obtain ⟨pre2, hreppre, -, hstep⟩ := hrep.2.2 pre hf
          have hlen : rest.length ≤ n := by
            have := matchCap_some_length h
            simp only at this
            simp only [List.length_cons] at hs this
            omega
          rw [hdec, hreppre, List.append_assoc, List.append_assoc]
          exact forall₂_chStep_subshape hstep
            (SubShape.run hdne hrep.1 hdd hrep.2.1 (ih rest hlen))
  exact fun s => H s.length s le_rfl

/-- A capture match at the front of `pre2 ++ nd ++ x`. -/
theorem matchCap_front {pat : List (List Char)} {pre2 nd x : List Char}
    (hf : List.Forall₂ (fun c cs => c ∈ cs) pre2 pat)
    (hnd : nd ≠ []) (hdd : ∀ c ∈ nd, isDig c = true) (hx : headNd x) :
    matchCap pat (pre2 ++ (nd ++ x)) = some (pre2, nd, x) := by
  unfold matchCap
  rw [matchSets_complete hf]
  simp only
  have htw : (nd ++ x).takeWhile isDig = nd := by
    rw [List.takeWhile_append_of_pos hdd]
    cases hxc : x with
    | nil => simp
    | cons y ys =>
      rw [List.takeWhile_cons_of_neg]
      · simp
      · simp [hx y ys hxc]
  rw [htw, if_neg hnd]
  rw [← htw, List.drop_left]

/-- The head of a substituted string is never a digit when the original's head
is not (replacements start with pattern text, whose first alternative set is
digit-free). -/
theorem headNd_subPat {pat : List (List Char)} {rep : List Char → List Char}
    {nd : List Char} (hgp : GoodPat pat) (hrep : RepDigN pat rep nd)
    {s : List Char} (hs : headNd s) : headNd (subPat pat rep s) := by
  cases s with
  | nil =>
    rw [subPat_nil]
    exact headNd_nil
  | cons c s2 =>
    cases h : matchCap pat (c :: s2) with
    | none =>
      rw [subPat_cons_none h]
      intro y ys hy
      injection hy with h1 _
      subst h1
      exact hs c s2 rfl
    | some pdr =>
      obtain ⟨pre, d, rest⟩ := pdr
      rw [subPat_cons_some h]
      obtain ⟨-, hf, -, -, -⟩ := matchCap_decomp h
      obtain ⟨pre2, hreppre, hf2, -⟩ := hrep.2.2 pre hf
      intro y ys hy
      cases hpat : pat with
      | nil => exact absurd hpat hgp.1
      | cons cs pat2 =>
        rw [hpat] at hf2
        cases hf2 with
        | cons hmem htail =>
          rename_i q0 q2
          rw [hreppre] at hy
          simp only [List.cons_append, List.append_assoc] at hy
          injection hy with h1 _
          subst h1
          exact hgp.2.1 cs (by rw [hpat]; exact List.mem_cons_self cs pat2) _ hmem

/-- Search at the front of `pre2 ++ nd ++ x`. -/
theorem searchPat_front {pat : List (List Char)} {pre2 nd x : List Char}
    (hf : List.Forall₂ (fun c cs => c ∈ cs) pre2 pat) (hne2 : pre2 ≠ [])
    (hnd : nd ≠ []) (hdd : ∀ c ∈ nd, isDig c = true) (hx : headNd x) :
    searchPat pat (pre2 ++ (nd ++ x)) = some nd := by
  have hfront := matchCap_front hf hnd hdd hx
  cases pre2 with
  | nil => exact absurd rfl hne2
  | cons q0 q2 =>
    rw [List.cons_append] at hfront ⊢
    unfold searchPat
    rw [hfront]

/-- Positive master lemma: substituting a matched pattern makes the search for
that same pattern return exactly the written digits. -/
theorem subPat_searchPat_pos {pat : List (List Char)} {rep : List Char → List Char}
    {nd : List Char} (hgp : GoodPat pat) (hrep : RepDigN pat rep nd) :
    ∀ s, (searchPat pat s).isSome = true →
      searchPat pat (subPat pat rep s) = some nd := by
  have H : ∀ n s, s.length ≤ n → (searchPat pat s).isSome = true →
      searchPat pat (subPat pat rep s) = some nd := by
    intro n
    induction n with
    | zero =>
      intro s hs hsome
      have : s = [] := List.eq_nil_of_length_eq_zero (by omega)
      subst this
      simp [searchPat] at hsome
    | succ n ih =>
      intro s hs hsome
      cases s with
      | nil => simp [searchPat] at hsome
      | cons c s2 =>
        cases h : matchCap pat (c :: s2) with
        | none =>
          rw [subPat_cons_none h]
          have hnm2 : matchCap pat (c :: subPat pat rep s2) = none := by
            cases hmc : matchCap pat (c :: subPat pat rep s2) with
            | none => rfl
            | some pdr2 =>
              have hb := back_matchCap hgp
                (SubShape.chr (chStep_refl c) (subshape_subPat hrep s2))
                (by rw [hmc]; rfl)
              rw [h] at hb
              cases hb
          unfold searchPat at hsome ⊢
          rw [h] at hsome
          rw [hnm2]
          exact ih s2 (by simpa using Nat.le_of_succ_le_succ hs) hsome
        | some pdr =>
          obtain ⟨pre, d, rest⟩ := pdr
          rw [subPat_cons_some h]
          obtain ⟨hdec, hf, hdne, hdd, hrnd⟩ := matchCap_decomp h
          obtain ⟨pre2, hreppre, hf2, -⟩ := hrep.2.2 pre hf
          have hne2 : pre2 ≠ [] := by
            intro hcon
            subst hcon
            cases hf2
            exact hgp.1 rfl
          rw [hreppre, List.append_assoc]
          exact searchPat_front hf2 hne2 hrep.1 hrep.2.1
            (headNd_subPat hgp hrep hrnd)
  exact fun s => H s.length s le_rfl

/-- A search capture is a non-empty digit string. -/
theorem searchPat_some_digits {pat : List (List Char)} :
    ∀ {s d : List Char}, searchPat pat s = some d →
      d ≠ [] ∧ ∀ x ∈ d, isDig x = true := by
  intro s
  induction s with
  | nil => intro d h; cases h
  | cons c s2 ih =>
    intro d h
    unfold searchPat at h
    split at h
    · rename_i pdr heq
      obtain ⟨pre, d2, rest⟩ := pdr
      obtain ⟨-, -, hdne, hdd, -⟩ := matchCap_decomp heq
      simp only [Option.some_inj] at h
      subst h
      exact ⟨hdne, hdd⟩
    · exact ih h

theorem goodPat_queryPage : GoodPat patQueryPage := by decide

theorem goodPat_queryP : GoodPat patQueryP := by decide

theorem goodPat_queryOffset : GoodPat patQueryOffset := by decide

theorem goodPat_queryStart : GoodPat patQueryStart := by decide

theorem goodPat_pathPage : GoodPat patPathPage := by decide

theorem goodPat_pathP : GoodPat patPathP := by decide

theorem goodPat_pathProducts : GoodPat patPathProducts := by decide

/-- The replacement `'/page-{n}'` of the `path_page` sub. -/
theorem repDigN_pathPage (m : Nat) :
    RepDigN patPathPage
      (fun _ => ('/' :: 'p' :: 'a' :: 'g' :: 'e' :: '-' ::[]) ++ natDigits m) (natDigits m) := by
  refine ⟨natDigits_ne_nil m, natDigits_all_dig m, ?_⟩
  intro pre hpre
  refine ⟨'/' :: 'p' :: 'a' :: 'g' :: 'e' :: '-' ::[], rfl, by decide, ?_⟩
  unfold patPathPage at hpre
  cases hpre with | cons h1 htl1 =>
  cases htl1 with | cons h2 htl2 =>
  cases htl2 with | cons h3 htl3 =>
  cases htl3 with | cons h4 htl4 =>
  cases htl4 with | cons h5 htl5 =>
  cases htl5 with | cons h6 htl6 =>
  cases htl6
  simp only [List.mem_singleton] at h1 h2 h3 h4 h5
  subst h1
  subst h2
  subst h3
  subst h4
  subst h5
  refine List.Forall₂.cons (chStep_refl _) ?_
  refine List.Forall₂.cons (chStep_refl _) ?_
  refine List.Forall₂.cons (chStep_refl _) ?_
  refine List.Forall₂.cons (chStep_refl _) ?_
  refine List.Forall₂.cons (chStep_refl _) ?_
  refine List.Forall₂.cons ?_ List.Forall₂.nil
  simp only [List.mem_cons, List.mem_singleton, List.not_mem_nil, or_false] at h6
  rcases h6 with rfl | rfl
  · exact Or.inr ⟨rfl, rfl⟩
  · exact Or.inl rfl

/-- The replacement `'/p/{n}'` of the `path_p` sub. -/
theorem repDigN_pathP (m : Nat) :
    RepDigN patPathP (fun _ => ('/' :: 'p' :: '/' ::[]) ++ natDigits m) (natDigits m) := by
  refine ⟨natDigits_ne_nil m, natDigits_all_dig m, ?_⟩
  intro pre hpre
  refine ⟨'/' :: 'p' :: '/' ::[], rfl, by decide, ?_⟩
  unfold patPathP at hpre
  cases hpre with | cons h1 htl1 =>
  cases htl1 with | cons h2 htl2 =>
  cases htl2 with | cons h3 htl3 =>
  cases htl3
  simp only [List.mem_singleton] at h1 h2 h3
  subst h1
  subst h2
  subst h3
  exact List.Forall₂.cons (chStep_refl _)
    (List.Forall₂.cons (chStep_refl _)
      (List.Forall₂.cons (chStep_refl _) List.Forall₂.nil))

/-- Substitution preserves lowercase-fixedness when the replacement does. -/
theorem lowerFixed_subPat {pat : List (List Char)} {rep : List Char → List Char}
    (hrep : ∀ pre, lowerFixed pre → lowerFixed (rep pre)) :
    ∀ s, lowerFixed s → lowerFixed (subPat pat rep s) := by
  have H : ∀ n s, s.length ≤ n → lowerFixed s → lowerFixed (subPat pat rep s) := by
    intro n
    induction n with
    | zero =>
      intro s hs hlf
      have : s = [] := List.eq_nil_of_length_eq_zero (by omega)
      subst this
      rw [subPat_nil]
      exact hlf
    | succ n ih =>
      intro s hs hlf
      cases s with
      | nil => rw [subPat_nil]; exact hlf
      | cons c s2 =>
        cases h : matchCap pat (c :: s2) with
        | none =>
          rw [subPat_cons_none h]
          have h2 : lowerFixed ([c] ++ s2) := hlf
          rw [lowerFixed_append_iff] at h2
          have := ih s2 (by simpa using Nat.le_of_succ_le_succ hs) h2.2
          exact lowerFixed_append (a := [c]) h2.1 this
        | some pdr =>
          obtain ⟨pre, d, rest⟩ := pdr
          rw [subPat_cons_some h]
          obtain ⟨hdec, -, -, -, -⟩ := matchCap_decomp h
          rw [hdec] at hlf
          rw [lowerFixed_append_iff] at hlf
          have hlf1 := hlf.1
          rw [lowerFixed_append_iff] at hlf1
          have hlen : rest.length ≤ n := by
            have := matchCap_some_length h
            simp only [List.length_cons] at hs this
            omega
          exact lowerFixed_append (hrep pre hlf1.1) (ih rest hlen hlf.2)
  exact fun s => H s.length s le_rfl

/-!
### Evaluating `detect_pattern` and `generate_next_url` branch by branch
-/

theorem detect_build_queryPage {url d : List Char} (hlf : lowerFixed url)
    (h : searchPat patQueryPage url = some d) :
    detect_pattern url = some ⟨tyQueryPage, digitsToNat d, [d]⟩ := by
  obtain ⟨hne, hdd⟩ := searchPat_some_digits h
  unfold detect_pattern
  rw [show url.map pyLower = url from hlf]
  dsimp only
  rw [h]
  dsimp only
  rw [pyInt_digits hne hdd]
  rfl

theorem detect_build_queryP {url d : List Char} (hlf : lowerFixed url)
    (h1 : searchPat patQueryPage url = none)
    (h : searchPat patQueryP url = some d) :
    detect_pattern url = some ⟨tyQueryP, digitsToNat d, [d]⟩ := by
  obtain ⟨hne, hdd⟩ := searchPat_some_digits h
  unfold detect_pattern
  rw [show url.map pyLower = url from hlf]
  dsimp only
  rw [h1, h]
  dsimp only
  rw [pyInt_digits hne hdd]
  rfl

theorem detect_build_queryOffset {url d : List Char} (hlf : lowerFixed url)
    (h1 : searchPat patQueryPage url = none)
    (h2 : searchPat patQueryP url = none)
    (h : searchPat patQueryOffset url = some d) :
    detect_pattern url = some ⟨tyQueryOffset, digitsToNat d, [d]⟩ := by
  obtain ⟨hne, hdd⟩ := searchPat_some_digits h
  unfold detect_pattern
  rw [show url.map pyLower = url from hlf]
  dsimp only
  rw [h1, h2, h]
  dsimp only
  rw [pyInt_digits hne hdd]
  rfl

theorem detect_build_queryStart {url d : List Char} (hlf : lowerFixed url)
    (h1 : searchPat patQueryPage url = none)
    (h2 : searchPat patQueryP url = none)
    (h3 : searchPat patQueryOffset url = none)
    (h : searchPat patQueryStart url = some d) :
    detect_pattern url = some ⟨tyQueryStart, digitsToNat d, [d]⟩ := by
  obtain ⟨hne, hdd⟩ := searchPat_some_digits h
  unfold detect_pattern
  rw [show url.map pyLower = url from hlf]
  dsimp only
  rw [h1, h2, h3, h]
  dsimp only
  rw [pyInt_digits hne hdd]
  rfl

theorem detect_build_pathPage {url d : List Char} (hlf : lowerFixed url)
    (h1 : searchPat patQueryPage url = none)
    (h2 : searchPat patQueryP url = none)
    (h3 : searchPat patQueryOffset url = none)
    (h4 : searchPat patQueryStart url = none)
    (h : searchPat patPathPage url = some d) :
    detect_pattern url = some ⟨tyPathPage, digitsToNat d, [d]⟩ := by
  obtain ⟨hne, hdd⟩ := searchPat_some_digits h
  unfold detect_pattern
  rw [show url.map pyLower = url from hlf]
  dsimp only
  rw [h1, h2, h3, h4, h]
  dsimp only
  rw [pyInt_digits hne hdd]
  rfl

theorem detect_build_pathP {url d : List Char} (hlf : lowerFixed url)
    (h1 : searchPat patQueryPage url = none)
    (h2 : searchPat patQueryP url = none)
    (h3 : searchPat patQueryOffset url = none)
    (h4 : searchPat patQueryStart url = none)
    (h5 : searchPat patPathPage url = none)
    (h : searchPat patPathP url = some d) :
    detect_pattern url = some ⟨tyPathP, digitsToNat d, [d]⟩ := by
  obtain ⟨hne, hdd⟩ := searchPat_some_digits h
  unfold detect_pattern
  rw [show url.map pyLower = url from hlf]
  dsimp only
  rw [h1, h2, h3, h4, h5, h]
  dsimp only
  rw [pyInt_digits hne hdd]
  rfl

theorem detect_build_pathProducts {url d : List Char} (hlf : lowerFixed url)
    (h1 : searchPat patQueryPage url = none)
    (h2 : searchPat patQueryP url = none)
    (h3 : searchPat patQueryOffset url = none)
    (h4 : searchPat patQueryStart url = none)
    (h5 : searchPat patPathPage url = none)
    (h6 : searchPat patPathP url = none)
    (h : searchPat patPathProducts url = some d) :
    detect_pattern url = some ⟨tyPathProducts, digitsToNat d, [d]⟩ := by
  obtain ⟨hne, hdd⟩ := searchPat_some_digits h
  unfold detect_pattern
  rw [show url.map pyLower = url from hlf]
  dsimp only
  rw [h1, h2, h3, h4, h5, h6, h]
  dsimp only
  rw [pyInt_digits hne hdd]
  rfl

theorem detect_build_custom {url w d : List Char} (hlf : lowerFixed url)
    (h1 : searchPat patQueryPage url = none)
    (h2 : searchPat patQueryP url = none)
    (h3 : searchPat patQueryOffset url = none)
    (h4 : searchPat patQueryStart url = none)
    (h5 : searchPat patPathPage url = none)
    (h6 : searchPat patPathP url = none)
    (h7 : searchPat patPathProducts url = none)
    (h : searchCustom url = some (w, d)) :
    detect_pattern url =
      (pyInt? w).map (fun m => ⟨tyQueryCustom, m, [w, d]⟩) := by
  unfold detect_pattern
  rw [show url.map pyLower = url from hlf]
  dsimp only
  rw [h1, h2, h3, h4, h5, h6, h7, h]

theorem detect_build_unknown {url : List Char} (hlf : lowerFixed url)
    (h1 : searchPat patQueryPage url = none)
    (h2 : searchPat patQueryP url = none)
    (h3 : searchPat patQueryOffset url = none)
    (h4 : searchPat patQueryStart url = none)
    (h5 : searchPat patPathPage url = none)
    (h6 : searchPat patPathP url = none)
    (h7 : searchPat patPathProducts url = none)
    (h : searchCustom url = none) :
    detect_pattern url = some ⟨tyUnknown, 1, []⟩ := by
  unfold detect_pattern
  rw [show url.map pyLower = url from hlf]
  dsimp only
  rw [h1, h2, h3, h4, h5, h6, h7, h]

theorem genInfo_eval_queryPage (url : List Char) (n cp : Nat) (g : List (List Char)) :
    generate_with_info url n ⟨tyQueryPage, cp, g⟩ =
      subPat patQueryPage (fun pre => pre ++ natDigits n) url := by
  unfold generate_with_info
  dsimp only
  rw [if_pos (by decide)]

theorem genInfo_eval_queryP (url : List Char) (n cp : Nat) (g : List (List Char)) :
    generate_with_info url n ⟨tyQueryP, cp, g⟩ =
      subPat patQueryP (fun pre => pre ++ natDigits n) url := by
  unfold generate_with_info
  dsimp only
  rw [if_neg (by decide), if_pos (by decide)]

theorem genInfo_eval_queryOffset (url : List Char) (n cp : Nat) (g : List (List Char)) :
    generate_with_info url n ⟨tyQueryOffset, cp, g⟩ =
      subPat patQueryOffset (fun pre => pre ++ natDigits ((n - 1) * 20)) url := by
  unfold generate_with_info
  dsimp only
  rw [if_neg (by decide), if_neg (by decide), if_pos (by decide)]

theorem genInfo_eval_queryStart (url : List Char) (n cp : Nat) (g : List (List Char)) :
    generate_with_info url n ⟨tyQueryStart, cp, g⟩ =
      subPat patQueryStart (fun pre => pre ++ natDigits ((n - 1) * 20)) url := by
  unfold generate_with_info
  dsimp only
  rw [if_neg (by decide), if_neg (by decide), if_neg (by decide), if_pos (by decide)]

theorem genInfo_eval_pathPage (url : List Char) (n cp : Nat) (g : List (List Char)) :
    generate_with_info url n ⟨tyPathPage, cp, g⟩ =
      subPat patPathPage (fun _ => ('/' :: 'p' :: 'a' :: 'g' :: 'e' :: '-' ::[]) ++ natDigits n) url := by
  unfold generate_with_info
  dsimp only
  rw [if_neg (by decide), if_neg (by decide), if_neg (by decide), if_neg (by decide),
    if_pos (by decide)]

theorem genInfo_eval_pathP (url : List Char) (n cp : Nat) (g : List (List Char)) :
    generate_with_info url n ⟨tyPathP, cp, g⟩ =
      subPat patPathP (fun _ => ('/' :: 'p' :: '/' ::[]) ++ natDigits n) url := by
  unfold generate_with_info
  dsimp only
  rw [if_neg (by decide), if_neg (by decide), if_neg (by decide), if_neg (by decide),
    if_neg (by decide), if_pos (by decide)]

/-- Main round-trip lemma over lowercase URLs for the six rewritable kinds:
the generated URL detects back with the written page value — the page number
itself for the `page`/`p`/path kinds, `(n-1)*20` for `offset`/`start`. -/
theorem roundtrip_main (url : List Char) (n : Nat) (info : PatternInfo)
    (hlf : lowerFixed url)
    (hdet : detect_pattern url = some info)
    (hkind : info.patternType ∈
      [tyQueryPage, tyQueryP, tyQueryOffset, tyQueryStart, tyPathPage, tyPathP]) :
    ∃ r info2, generate_next_url url n = some r ∧
      detect_pattern r = some info2 ∧ info2.patternType = info.patternType ∧
      info2.currentPage =
        (if info.patternType = tyQueryOffset ∨ info.patternType = tyQueryStart
          then (n - 1) * 20 else n) := by
  cases h1 : searchPat patQueryPage url with
  | some d =>
    have hinfo : info = ⟨tyQueryPage, digitsToNat d, [d]⟩ :=
      Option.some_inj.mp (hdet.symm.trans (detect_build_queryPage hlf h1))
    subst hinfo
    refine ⟨subPat patQueryPage (fun pre => pre ++ natDigits n) url,
      ⟨tyQueryPage, n, [natDigits n]⟩, ?_, ?_, rfl,
      show n = if tyQueryPage = tyQueryOffset ∨ tyQueryPage = tyQueryStart
          then (n - 1) * 20 else n from by rw [if_neg (by decide)]⟩
    · unfold generate_next_url
      rw [hdet, Option.map_some', genInfo_eval_queryPage]
    · have hlfr : lowerFixed (subPat patQueryPage (fun pre => pre ++ natDigits n) url) :=
        lowerFixed_subPat (fun pre hp => lowerFixed_append hp (lowerFixed_natDigits n)) url hlf
      have hpos := subPat_searchPat_pos goodPat_queryPage
        (repDigN_keep patQueryPage n) url (by rw [h1]; rfl)
      rw [detect_build_queryPage hlfr hpos, digitsToNat_natDigits]
  | none =>
  cases h2 : searchPat patQueryP url with
  | some d =>
    have hinfo : info = ⟨tyQueryP, digitsToNat d, [d]⟩ :=
      Option.some_inj.mp (hdet.symm.trans (detect_build_queryP hlf h1 h2))
    subst hinfo
    refine ⟨subPat patQueryP (fun pre => pre ++ natDigits n) url,
      ⟨tyQueryP, n, [natDigits n]⟩, ?_, ?_, rfl,
      show n = if tyQueryP = tyQueryOffset ∨ tyQueryP = tyQueryStart
          then (n - 1) * 20 else n from by rw [if_neg (by decide)]⟩
    · unfold generate_next_url
      rw [hdet, Option.map_some', genInfo_eval_queryP]
    · have hlfr : lowerFixed (subPat patQueryP (fun pre => pre ++ natDigits n) url) :=
        lowerFixed_subPat (fun pre hp => lowerFixed_append hp (lowerFixed_natDigits n)) url hlf
      have hss := subshape_subPat (repDigN_keep patQueryP n) url
      have hpos := subPat_searchPat_pos goodPat_queryP
        (repDigN_keep patQueryP n) url (by rw [h2]; rfl)
      rw [detect_build_queryP hlfr
        (sub_searchPat_none goodPat_queryPage hss h1) hpos, digitsToNat_natDigits]
  | none =>
  cases h3 : searchPat patQueryOffset url with
  | some d =>
    have hinfo : info = ⟨tyQueryOffset, digitsToNat d, [d]⟩ :=
      Option.some_inj.mp (hdet.symm.trans (detect_build_queryOffset hlf h1 h2 h3))
    subst hinfo
    refine ⟨subPat patQueryOffset (fun pre => pre ++ natDigits ((n - 1) * 20)) url,
      ⟨tyQueryOffset, (n - 1) * 20, [natDigits ((n - 1) * 20)]⟩, ?_, ?_, rfl,
      show (n - 1) * 20 = if tyQueryOffset = tyQueryOffset ∨ tyQueryOffset = tyQueryStart
          then (n - 1) * 20 else n from by rw [if_pos (by decide)]⟩
    · unfold generate_next_url
      rw [hdet, Option.map_some', genInfo_eval_queryOffset]
    · have hlfr : lowerFixed
          (subPat patQueryOffset (fun pre => pre ++ natDigits ((n - 1) * 20)) url) :=
        lowerFixed_subPat
          (fun pre hp => lowerFixed_append hp (lowerFixed_natDigits ((n - 1) * 20))) url hlf
      have hss := subshape_subPat (repDigN_keep patQueryOffset ((n - 1) * 20)) url
      have hpos := subPat_searchPat_pos goodPat_queryOffset
        (repDigN_keep patQueryOffset ((n - 1) * 20)) url (by rw [h3]; rfl)
      rw [detect_build_queryOffset hlfr
        (sub_searchPat_none goodPat_queryPage hss h1)
        (sub_searchPat_none goodPat_queryP hss h2) hpos, digitsToNat_natDigits]
  | none =>
  cases h4 : searchPat patQueryStart url with
  | some d =>
    have hinfo : info = ⟨tyQueryStart, digitsToNat d, [d]⟩ :=
      Option.some_inj.mp (hdet.symm.trans (detect_build_queryStart hlf h1 h2 h3 h4))
    subst hinfo
    refine ⟨subPat patQueryStart (fun pre => pre ++ natDigits ((n - 1) * 20)) url,
      ⟨tyQueryStart, (n - 1) * 20, [natDigits ((n - 1) * 20)]⟩, ?_, ?_, rfl,
      show (n - 1) * 20 = if tyQueryStart = tyQueryOffset ∨ tyQueryStart = tyQueryStart
          then (n - 1) * 20 else n from by rw [if_pos (by decide)]⟩
    · unfold generate_next_url
      rw [hdet, Option.map_some', genInfo_eval_queryStart]
    · have hlfr : lowerFixed
          (subPat patQueryStart (fun pre => pre ++ natDigits ((n - 1) * 20)) url) :=
        lowerFixed_subPat
          (fun pre hp => lowerFixed_append hp (lowerFixed_natDigits ((n - 1) * 20))) url hlf
      have hss := subshape_subPat (repDigN_keep patQueryStart ((n - 1) * 20)) url
      have hpos := subPat_searchPat_pos goodPat_queryStart
        (repDigN_keep patQueryStart ((n - 1) * 20)) url (by rw [h4]; rfl)
      rw [detect_build_queryStart hlfr
        (sub_searchPat_none goodPat_queryPage hss h1)
        (sub_searchPat_none goodPat_queryP hss h2)
        (sub_searchPat_none goodPat_queryOffset hss h3) hpos, digitsToNat_natDigits]
  | none =>
  cases h5 : searchPat patPathPage url with
  | some d =>
    have hinfo : info = ⟨tyPathPage, digitsToNat d, [d]⟩ :=
      Option.some_inj.mp (hdet.symm.trans (detect_build_pathPage hlf h1 h2 h3 h4 h5))
    subst hinfo
    refine ⟨subPat patPathPage (fun _ => ('/' :: 'p' :: 'a' :: 'g' :: 'e' :: '-' ::[]) ++ natDigits n) url,
      ⟨tyPathPage, n, [natDigits n]⟩, ?_, ?_, rfl,
      show n = if tyPathPage = tyQueryOffset ∨ tyPathPage = tyQueryStart
          then (n - 1) * 20 else n from by rw [if_neg (by decide)]⟩
    · unfold generate_next_url
      rw [hdet, Option.map_some', genInfo_eval_pathPage]
    · have hlfr : lowerFixed (subPat patPathPage
          (fun _ => ('/' :: 'p' :: 'a' :: 'g' :: 'e' :: '-' ::[]) ++ natDigits n) url) :=
        lowerFixed_subPat (fun _ _ => lowerFixed_append
          (show lowerFixed ('/' :: 'p' :: 'a' :: 'g' :: 'e' :: '-' ::[]) from by decide)
          (lowerFixed_natDigits n)) url hlf
      have hss := subshape_subPat (repDigN_pathPage n) url
      have hpos := subPat_searchPat_pos goodPat_pathPage
        (repDigN_pathPage n) url (by rw [h5]; rfl)
      rw [detect_build_pathPage hlfr
        (sub_searchPat_none goodPat_queryPage hss h1)
        (sub_searchPat_none goodPat_queryP hss h2)
        (sub_searchPat_none goodPat_queryOffset hss h3)
        (sub_searchPat_none goodPat_queryStart hss h4) hpos, digitsToNat_natDigits]
  | none =>
  cases h6 : searchPat patPathP url with
  | some d =>
    have hinfo : info = ⟨tyPathP, digitsToNat d, [d]⟩ :=
      Option.some_inj.mp (hdet.symm.trans (detect_build_pathP hlf h1 h2 h3 h4 h5 h6))
    subst hinfo
    refine ⟨subPat patPathP (fun _ => ('/' :: 'p' :: '/' ::[]) ++ natDigits n) url,
      ⟨tyPathP, n, [natDigits n]⟩, ?_, ?_, rfl,
      show n = if tyPathP = tyQueryOffset ∨ tyPathP = tyQueryStart
          then (n - 1) * 20 else n from by rw [if_neg (by decide)]⟩
    · unfold generate_next_url
      rw [hdet, Option.map_some', genInfo_eval_pathP]
    · have hlfr : lowerFixed (subPat patPathP
          (fun _ => ('/' :: 'p' :: '/' ::[]) ++ natDigits n) url) :=
        lowerFixed_subPat (fun _ _ => lowerFixed_append
          (show lowerFixed ('/' :: 'p' :: '/' ::[]) from by decide)
          (lowerFixed_natDigits n)) url hlf
      have hss := subshape_subPat (repDigN_pathP n) url
      have hpos := subPat_searchPat_pos goodPat_pathP
        (repDigN_pathP n) url (by rw [h6]; rfl)
      rw [detect_build_pathP hlfr
        (sub_searchPat_none goodPat_queryPage hss h1)
        (sub_searchPat_none goodPat_queryP hss h2)
        (sub_searchPat_none goodPat_queryOffset hss h3)
        (sub_searchPat_none goodPat_queryStart hss h4)
        (sub_searchPat_none goodPat_pathPage hss h5) hpos, digitsToNat_natDigits]
  | none =>
  cases h7 : searchPat patPathProducts url with
  | some d =>
    have hinfo : info = ⟨tyPathProducts, digitsToNat d, [d]⟩ :=
      Option.some_inj.mp (hdet.symm.trans
        (detect_build_pathProducts hlf h1 h2 h3 h4 h5 h6 h7))
    subst hinfo
    exact absurd (show tyPathProducts ∈
      [tyQueryPage, tyQueryP, tyQueryOffset, tyQueryStart, tyPathPage, tyPathP]
      from hkind) (by decide)
  | none =>
  cases h8 : searchCustom url with
  | some wd =>
    obtain ⟨w, d⟩ := wd
    have hb := detect_build_custom hlf h1 h2 h3 h4 h5 h6 h7 h8
    rw [hdet] at hb
    cases hpy : pyInt? w with
    | none =>
      rw [hpy] at hb
      cases hb
    | some m =>
      rw [hpy] at hb
      have hinfo : info = ⟨tyQueryCustom, m, [w, d]⟩ := Option.some_inj.mp hb
      subst hinfo
      exact absurd (show tyQueryCustom ∈
        [tyQueryPage, tyQueryP, tyQueryOffset, tyQueryStart, tyPathPage, tyPathP]
        from hkind) (by decide)
  | none =>
    have hinfo : info = ⟨tyUnknown, 1, []⟩ :=
      Option.some_inj.mp (hdet.symm.trans
        (detect_build_unknown hlf h1 h2 h3 h4 h5 h6 h7 h8))
    subst hinfo
    exact absurd (show tyUnknown ∈
      [tyQueryPage, tyQueryP, tyQueryOffset, tyQueryStart, tyPathPage, tyPathP]
      from hkind) (by decide)

/-- Claim C1, counterexample: the claim quantifies over *every* URL in which a
known pagination pattern is detected, but for `"https://x.com/items?Page=2"`
(kind `query_page`, detected on the lowercased copy) generating the URL for
page 5 returns the input unchanged — the rewrite is case-sensitive — so
re-detection yields `current_page = 2`, not 5. -/
theorem C1_counterexample :
    (∃ info, detect_pattern (("https://x.com/items?Page=2").toList) = some info ∧
      info.patternType = tyQueryPage) ∧
    ((generate_next_url (("https://x.com/items?Page=2").toList) 5).bind
      (fun r => detect_pattern r)).map PatternInfo.currentPage = some 2 ∧
    (2 : Nat) ≠ 5 :=
  ⟨⟨⟨tyQueryPage, 2, [('2' :: [])]⟩, by decide, rfl⟩, by decide, by decide⟩

/-- Claim C1, amended: for the URL `"https://x.com/items?page=2"` and target
page 5 the generated URL is `"https://x.com/items?page=5"`; and for every URL
that is unchanged by lowercasing, if `detect_pattern` finds one of the kinds
`query_page`, `query_p`, `query_offset`, `query_start`, `path_page`, `path_p`,
then `generate_next_url` for target page `n ≥ 1` followed by `detect_pattern`
yields the same kind with `current_page = n` — except for the `offset=` and
`start=` kinds, whose rewrite writes `(n-1)*20`, so re-detection yields
`(n-1)*20` rather than `n`. -/
theorem C1_roundtrip_lowercase :
    generate_next_url (("https://x.com/items?page=2").toList) 5
      = some (("https://x.com/items?page=5").toList) ∧
    ∀ url n info, lowerFixed url → 1 ≤ n →
      detect_pattern url = some info →
      info.patternType ∈
        [tyQueryPage, tyQueryP, tyQueryOffset, tyQueryStart, tyPathPage, tyPathP] →
      ∃ r info2, generate_next_url url n = some r ∧
        detect_pattern r = some info2 ∧ info2.patternType = info.patternType ∧
        info2.currentPage =
          (if info.patternType = tyQueryOffset ∨ info.patternType = tyQueryStart
            then (n - 1) * 20 else n) :=
  ⟨by decide, fun url n info hlf _ hdet hkind => roundtrip_main url n info hlf hdet hkind⟩

/-- Claim C1, witness: the amended round-trip instantiated at
`"https://x.com/items?page=2"` and target page 5. -/
theorem C1_roundtrip_lowercase_witness :
    lowerFixed (("https://x.com/items?page=2").toList) ∧ 1 ≤ 5 ∧
    (∃ r info2,
      generate_next_url (("https://x.com/items?page=2").toList) 5 = some r ∧
      detect_pattern r = some info2 ∧
      info2.patternType = (⟨tyQueryPage, 2, [('2' :: [])]⟩ : PatternInfo).patternType ∧
      info2.currentPage =
        (if (⟨tyQueryPage, 2, [('2' :: [])]⟩ : PatternInfo).patternType = tyQueryOffset
            ∨ (⟨tyQueryPage, 2, [('2' :: [])]⟩ : PatternInfo).patternType = tyQueryStart
          then (5 - 1) * 20 else 5)) :=
  ⟨by decide, by decide,
    C1_roundtrip_lowercase.2 (("https://x.com/items?page=2").toList) 5
      ⟨tyQueryPage, 2, [('2' :: [])]⟩ (by decide) (by decide) (by decide) (by decide)⟩

/-- Claim C3: `detect_pattern` is *not* total on the generic `key=integer`
fallback.  On `"https://x.com/items?limit=30"` the `query_custom` regex
matches with groups `("limit", "30")`, but `current_page` is computed as
`int(match.group(1))` — group 1 is the parameter *name* — so `int("limit")`
raises `ValueError` (modelled by `none`) instead of returning 30. -/
theorem C3_generic_key_raises :
    detect_pattern (("https://x.com/items?limit=30").toList) = none ∧
    searchCustom ((("https://x.com/items?limit=30").toList).map pyLower)
      = some (("limit").toList, ("30").toList) ∧
    pyInt? (("limit").toList) = none :=
  ⟨by decide, by decide, by decide⟩

/-- Claim C10: there exist URLs whose pagination parameter differs from a
known pattern only in letter case — e.g. `"https://x.com/items?Page=2"` —
for which `generate_next_url(url, N)` returns the input unchanged:
`detect_pattern` matches the lowercased copy (kind `query_page`), the rewrite
is applied case-sensitively to the original string, and since a pattern was
detected no fallback page parameter is appended. -/
theorem C10_case_sensitive_rewrite :
    ∃ url : List Char,
      (∃ info, detect_pattern url = some info ∧ info.patternType = tyQueryPage) ∧
      generate_next_url url 5 = some url ∧ url.map pyLower ≠ url :=
  ⟨("https://x.com/items?Page=2").toList,
    ⟨⟨tyQueryPage, 2, [('2' :: [])]⟩, by decide, rfl⟩, by decide, by decide⟩

end URLGenerator

namespace MonitoringService

/-!
## `backend/monitoring_service.py` — recovery detector and attempt counter

`recovery_attempts` is the process-local dict mapping provider project tokens
to attempt counts; `max_recovery_attempts` the environment-configured cap
(default 3).  The external `RecoveryService.trigger_auto_recovery` call is an
out-of-scope collaborator; its reported success is an oracle argument. -/

/-- The mutable state the recovery detector keeps. -/
structure MonState where
  attempts : List (String × Nat)
  maxAttempts : Nat
deriving DecidableEq, Repr

/-- Python `dict` lookup `attempts[token]` / `token in attempts`. -/
def lookupTok (l : List (String × Nat)) (k : String) : Option Nat :=
  match l with
  | [] => none
  | (k0, v0) :: t => if k0 = k then some v0 else lookupTok t k

/-- Python `dict` assignment `attempts[token] = v` (updates in place,
preserving insertion order, else appends). -/
def setTok (l : List (String × Nat)) (k : String) (v : Nat) : List (String × Nat) :=
  match l with
  | [] => [(k, v)]
  | (k0, v0) :: t => if k0 = k then (k0, v) :: t else (k0, v0) :: setTok t k v

/-- `MonitoringService.trigger_recovery`: calls the external recovery service;
on reported success increments `recovery_attempts[token]` (defaulting the old
count to 0), on failure leaves the counter unchanged. -/
def trigger_recovery (st : MonState) (tok : String) (success : Bool) : MonState :=
  if success then
    { st with attempts := setTok st.attempts tok ((lookupTok st.attempts tok).getD 0 + 1) }
  else st

/-- `MonitoringService._handle_stop_detected`: if the token already has a
counter at or above the cap, log and return (no recovery, state unchanged);
otherwise initialise a missing counter to 0 and trigger recovery.  The `Bool`
in the result records whether `trigger_recovery` was invoked. -/
def handle_stop_detected (st : MonState) (tok : String) (success : Bool) :
    MonState × Bool :=
  match lookupTok st.attempts tok with
  | some c =>
    if st.maxAttempts ≤ c then (st, false)
    else (trigger_recovery st tok success, true)
  | none =>
    (trigger_recovery { st with attempts := setTok st.attempts tok 0 } tok success, true)

/-- `MonitoringService.reset_recovery_counter`: deletes the token's entry. -/
def reset_recovery_counter (st : MonState) (tok : String) : MonState :=
  { st with attempts := st.attempts.filter (fun p => !(p.1 = tok : Bool)) }

/-- `MonitoringService._is_incomplete_run`: a completed run with
`pages_scraped < 5 and data_count < 20` (fields defaulting to 0) looks
incomplete; falsy (missing/empty) project data yields `False`. -/
structure LastRun where
  pages_scraped : Int
  data_count : Int
deriving DecidableEq, Repr

/-- The `/projects` payload item: `none` models falsy `project_data`
(`None` or `{}`); a present `last_run` key carries the counts. -/
structure ProjData where
  last_run : Option LastRun
deriving DecidableEq, Repr

def is_incomplete_run (pd : Option ProjData) : Bool :=
  match pd with
  | none => false
  | some p =>
    let pages := (p.last_run.map LastRun.pages_scraped).getD 0
    let data := (p.last_run.map LastRun.data_count).getD 0
    pages < 5 && data < 20

/-- The recovery condition of `MonitoringService.check_single_project`:
`status in ['stuck', 'cancelled'] or (status == 'completed' and
self._is_incomplete_run(project_data))`. -/
def needs_recovery (status : String) (pd : Option ProjData) : Bool :=
  (status = "stuck" || status = "cancelled") ||
    (status = "completed" && is_incomplete_run pd)

theorem lookupTok_setTok_self (l : List (String × Nat)) (k : String) (v : Nat) :
    lookupTok (setTok l k v) k = some v := by
  induction l with
  | nil => simp [setTok, lookupTok]
  | cons p t ih =>
    obtain ⟨k0, v0⟩ := p
    by_cases h : k0 = k
    · simp [setTok, lookupTok, h]
    · simp [setTok, lookupTok, h, ih]

theorem lookupTok_setTok_other (l : List (String × Nat)) {k k2 : String}
    (h : k ≠ k2) (v : Nat) : lookupTok (setTok l k v) k2 = lookupTok l k2 := by
  induction l with
  | nil => simp [setTok, lookupTok, h]
  | cons p t ih =>
    obtain ⟨k0, v0⟩ := p
    by_cases h0 : k0 = k
    · subst h0
      simp [setTok, lookupTok, h]
    · simp [setTok, lookupTok, h0, ih]

theorem lookupTok_reset_self (l : List (String × Nat)) (k : String) :
    lookupTok (l.filter (fun p => !(p.1 = k : Bool))) k = none := by
  induction l with
  | nil => rfl
  | cons p t ih =>
    obtain ⟨k0, v0⟩ := p
    by_cases h : k0 = k
    · simp [List.filter, h, ih]
    · simp [List.filter, h, lookupTok, ih]

end MonitoringService

namespace SessionMonitor

/-!
## `backend/session_monitor.py` — per-cycle page-range computation

`SessionMonitor.process_session` first marks the session complete when
`pages_completed >= total_pages_target`; otherwise it computes
`start_page = pages_completed + 1` and
`end_page = min(start_page + pages_per_iteration - 1, total_pages)` with the
hard-coded `pages_per_iteration = 10`, and dispatches that range to the
executor. -/

def pages_per_iteration : Nat := 10

/-- The dispatched page range of one `process_session` call: `none` when the
session is already complete. -/
def compute_iteration_range (pages_completed total_pages : Nat) :
    Option (Nat × Nat) :=
  if total_pages ≤ pages_completed then none
  else
    let start_page := pages_completed + 1
    let end_page := min (start_page + pages_per_iteration - 1) total_pages
    some (start_page, end_page)

end SessionMonitor

namespace DataConsolidationService

/-!
## `backend/data_consolidation_service.py` — `compare_pages`

Python floats are modelled by exact rationals; `round(x, 1)` is round half to
even at one decimal. -/

/-- Python's `round` to an integer: round half to even. -/
def pyRoundHalfEven (q : ℚ) : ℤ :=
  let f := ⌊q⌋
  if q - f < 1/2 then f
  else if 1/2 < q - f then f + 1
  else if f % 2 = 0 then f else f + 1

/-- Python's `round(x, 1)`. -/
def pyRound1 (q : ℚ) : ℚ := (pyRoundHalfEven (q * 10) : ℚ) / 10

/-- The result dictionary of `compare_pages`. -/
structure CompareResult where
  is_complete : Bool
  pages_remaining : Int
  pages_completed : Int
  total_target : Int
  percentage : ℚ
deriving DecidableEq, Repr

/-- `DataConsolidationService.compare_pages(scraped_pages, target_pages)`. -/
def compare_pages (scraped_pages target_pages : Int) : CompareResult :=
  { is_complete := decide (target_pages ≤ scraped_pages)
    pages_remaining := max 0 (target_pages - scraped_pages)
    pages_completed := scraped_pages
    total_target := target_pages
    percentage :=
      pyRound1 (if 0 < target_pages
        then (scraped_pages : ℚ) / (target_pages : ℚ) * 100 else 0) }

theorem pyRoundHalfEven_abs (q : ℚ) : |(pyRoundHalfEven q : ℚ) - q| ≤ 1/2 := by
  have h1 := Int.floor_le q
  have h2 := Int.lt_floor_add_one q
  unfold pyRoundHalfEven
  dsimp only
  split
  · rename_i h
    rw [abs_le]
    constructor <;> linarith
  · rename_i h
    push_neg at h
    split
    · rename_i h3
      rw [abs_le]
      push_cast
      constructor <;> linarith
    · rename_i h3
      push_neg at h3
      split <;> (rw [abs_le]; push_cast; constructor <;> linarith)

theorem pyRound1_abs (q : ℚ) : |pyRound1 q - q| ≤ 1/20 := by
  have h := pyRoundHalfEven_abs (q * 10)
  rw [abs_le] at h ⊢
  obtain ⟨ha, hb⟩ := h
  unfold pyRound1
  constructor <;> linarith

end DataConsolidationService

namespace MonitoringService

/-- Claim C5: the recovery-attempt counter never exceeds
`max_recovery_attempts` (provided the cap is at least 1, as with the default
3): handling a detected stop preserves the bound; once a project's counter
has reached the cap a detected stop triggers no recovery and leaves the state
unchanged; and after an explicit operator reset recovery is triggered
again. -/
theorem C5_recovery_attempt_cap (st : MonState) (tok : String) (success : Bool)
    (hmax : 1 ≤ st.maxAttempts) :
    ((∀ t c, lookupTok st.attempts t = some c → c ≤ st.maxAttempts) →
      ∀ t c, lookupTok (handle_stop_detected st tok success).1.attempts t = some c →
        c ≤ st.maxAttempts) ∧
    (∀ c, lookupTok st.attempts tok = some c → st.maxAttempts ≤ c →
      handle_stop_detected st tok success = (st, false)) ∧
    (handle_stop_detected (reset_recovery_counter st tok) tok success).2 = true := by
  refine ⟨?_, ?_, ?_⟩
  · intro hinv t c hl
    unfold handle_stop_detected at hl
    cases hlook : lookupTok st.attempts tok with
    | some c0 =>
      rw [hlook] at hl
      dsimp only at hl
      split at hl
      · exact hinv t c hl
      · rename_i hlt
        push_neg at hlt
        unfold trigger_recovery at hl
        cases success with
        | false =>
          simp only [Bool.false_eq_true, if_false] at hl
          exact hinv t c hl
        | true =>
          simp only [if_true] at hl
          rw [hlook] at hl
          by_cases ht : tok = t
          · subst ht
            rw [lookupTok_setTok_self] at hl
            injection hl with hl
            simp only [Option.getD_some] at hl
            have := hinv tok c0 hlook
            omega
          · rw [lookupTok_setTok_other _ ht] at hl
            exact hinv t c hl
    | none =>
      rw [hlook] at hl
      dsimp only at hl
      unfold trigger_recovery at hl
      cases success with
      | false =>
        simp only [Bool.false_eq_true, if_false] at hl
        by_cases ht : tok = t
        · subst ht
          rw [lookupTok_setTok_self] at hl
          injection hl with hl
          omega
        · rw [lookupTok_setTok_other _ ht] at hl
          exact hinv t c hl
      | true =>
        simp only [if_true] at hl
        rw [lookupTok_setTok_self] at hl
        by_cases ht : tok = t
        · subst ht
          rw [lookupTok_setTok_self] at hl
          injection hl with hl
          simp only [Option.getD_some] at hl
          omega
        · rw [lookupTok_setTok_other _ ht, lookupTok_setTok_other _ ht] at hl
          exact hinv t c hl
  · intro c hc hge
    unfold handle_stop_detected
    rw [hc]
    dsimp only
    rw [if_pos hge]
  · unfold handle_stop_detected reset_recovery_counter
    dsimp only
    rw [lookupTok_reset_self]

/-- Claim C5, witness: a provider project stuck with `attempt_number = 3` and
`max_recovery_attempts = 3` triggers no recovery and leaves state
unchanged. -/
theorem C5_recovery_attempt_cap_witness :
    1 ≤ (MonState.mk [("proj", 3)] 3).maxAttempts ∧
    handle_stop_detected (MonState.mk [("proj", 3)] 3) "proj" true
      = (MonState.mk [("proj", 3)] 3, false) :=
  ⟨by decide,
    (C5_recovery_attempt_cap (MonState.mk [("proj", 3)] 3) "proj" true
      (by decide)).2.1 3 (by decide) (by decide)⟩

/-- Claim C7: the recovery detector deems a project to need recovery exactly
when the polled status is `stuck` or `cancelled`, or when it is `completed`
and the project's last run has `pages_scraped < 5` and `data_count < 20`; in
every other case it takes no recovery action. -/
theorem C7_needs_recovery_iff (status : String) (pd : Option ProjData) :
    needs_recovery status pd = true ↔
      status = "stuck" ∨ status = "cancelled" ∨
        (status = "completed" ∧ ∃ p, pd = some p ∧
          (p.last_run.map LastRun.pages_scraped).getD 0 < 5 ∧
          (p.last_run.map LastRun.data_count).getD 0 < 20) := by
  unfold needs_recovery is_incomplete_run
  cases pd with
  | none =>
    simp only [Bool.or_eq_true, Bool.and_eq_true, decide_eq_true_eq]
    constructor
    · rintro ((h | h) | ⟨h, hfalse⟩)
      · exact Or.inl h
      · exact Or.inr (Or.inl h)
      · cases hfalse
    · rintro (h | h | ⟨h, p, hp, -⟩)
      · exact Or.inl (Or.inl h)
      · exact Or.inl (Or.inr h)
      · cases hp
  | some p =>
    simp only [Bool.or_eq_true, Bool.and_eq_true, decide_eq_true_eq]
    constructor
    · rintro ((h | h) | ⟨h, hlow⟩)
      · exact Or.inl h
      · exact Or.inr (Or.inl h)
      · obtain ⟨h1, h2⟩ := hlow
        exact Or.inr (Or.inr ⟨h, p, rfl, h1, h2⟩)
    · rintro (h | h | ⟨h, p2, hp2, h1, h2⟩)
      · exact Or.inl (Or.inl h)
      · exact Or.inl (Or.inr h)
      · injection hp2 with hp2
        subst hp2
        exact Or.inr ⟨h, h1, h2⟩

end MonitoringService

namespace SessionMonitor

/-- Claim C6: on each cycle, a running session with
`pages_completed < total_pages_target` is dispatched the page range
`[pages_completed + 1, min(pages_completed + pages_per_iteration,
total_pages_target)]` with `pages_per_iteration = 10`; for a target of 25
pages the successive ranges from 0, 10 and 20 completed pages are `[1,10]`,
`[11,20]` and `[21,25]` (clamped, not `[21,30]`), and at 25 completed pages
the session is complete — no range is dispatched. -/
theorem C6_iteration_range :
    (∀ pages_completed total : Nat, pages_completed < total →
      compute_iteration_range pages_completed total
        = some (pages_completed + 1, min (pages_completed + 10) total)) ∧
    compute_iteration_range 0 25 = some (1, 10) ∧
    compute_iteration_range 10 25 = some (11, 20) ∧
    compute_iteration_range 20 25 = some (21, 25) ∧
    (21, 25) ≠ (21, 30) ∧
    compute_iteration_range 25 25 = none := by
  refine ⟨?_, by decide, by decide, by decide, by decide, by decide⟩
  intro pc total h
  unfold compute_iteration_range
  rw [if_neg (by omega)]
  dsimp only
  have he : pc + 1 + pages_per_iteration - 1 = pc + 10 := by
    unfold pages_per_iteration
    omega
  rw [he]

/-- Claim C6, witness: the range formula instantiated at the scenario's first
cycle. -/
theorem C6_iteration_range_witness :
    0 < 25 ∧ compute_iteration_range 0 25 = some (0 + 1, min (0 + 10) 25) :=
  ⟨by decide, C6_iteration_range.1 0 25 (by decide)⟩

end SessionMonitor

namespace DataConsolidationService

/-- Claim C8, counterexample: the claim states
`percentage = scraped/target*100` exactly, but the code rounds to one
decimal: `compare_pages(1, 3).percentage` is `33.3`, not `100/3`. -/
theorem floor_thousand_thirds : ⌊(1000 : ℚ)/3⌋ = 333 := by
  rw [Int.floor_eq_iff]
  norm_num

theorem compare_pages_one_three :
    (compare_pages 1 3).percentage = 333/10 := by
  unfold compare_pages pyRound1 pyRoundHalfEven
  dsimp only
  rw [if_pos (by norm_num : (0:Int) < 3)]
  rw [show ((1:Int) : ℚ) / ((3:Int) : ℚ) * 100 * 10 = (1000 : ℚ)/3 by push_cast; ring]
  rw [floor_thousand_thirds]
  rw [if_pos (by norm_num)]
  norm_num

theorem C8_counterexample :
    (compare_pages 1 3).percentage = 333/10 ∧
    (333 : ℚ)/10 ≠ (1 : ℚ)/(3 : ℚ) * 100 :=
  ⟨compare_pages_one_three, by norm_num⟩

/-- Claim C8, amended: `compare_pages(scraped, target)` returns
`is_complete = (scraped ≥ target)`, `pages_remaining = max(0, target -
scraped)`, and `percentage = scraped/target*100` rounded to one decimal
(within 1/20 of the exact ratio); when `target = 0` the percentage is 0 and
no division by zero occurs, so in particular
`compare_pages(0, 0).percentage == 0`. -/
theorem C8_compare_pages :
    (∀ s t : Int,
      ((compare_pages s t).is_complete = true ↔ s ≥ t) ∧
      (compare_pages s t).pages_remaining = max 0 (t - s) ∧
      (t = 0 → (compare_pages s t).percentage = 0) ∧
      (0 < t → (compare_pages s t).percentage
          = pyRound1 ((s : ℚ) / (t : ℚ) * 100) ∧
        |(compare_pages s t).percentage - (s : ℚ) / (t : ℚ) * 100| ≤ 1/20)) ∧
    (compare_pages 0 0).percentage = 0 := by
  have hz : pyRound1 0 = 0 := by
    unfold pyRound1 pyRoundHalfEven
    norm_num
  refine ⟨?_, by simp [compare_pages, hz]⟩
  intro s t
  refine ⟨by simp [compare_pages, ge_iff_le], rfl, ?_, ?_⟩
  · intro ht
    subst ht
    simp [compare_pages, hz]
  · intro ht
    unfold compare_pages
    dsimp only
    rw [if_pos ht]
    exact ⟨rfl, pyRound1_abs _⟩

/-- Claim C8, witness: the amended statement instantiated at
`scraped = 1, target = 3`. -/
theorem C8_compare_pages_witness :
    (0 : Int) < 3 ∧ ((compare_pages 1 3).percentage
        = pyRound1 ((1 : ℚ) / (3 : ℚ) * 100) ∧
      |(compare_pages 1 3).percentage - (1 : ℚ) / (3 : ℚ) * 100| ≤ 1/20) :=
  ⟨by decide, ((C8_compare_pages.1 1 3).2.2.2) (by decide)⟩

end DataConsolidationService

namespace DataConsolidationService

/-!
## `backend/data_consolidation_service.py` — CSV parsing, hashing, merging

The `csv` module's default dialect is modelled by its reader state machine:
delimiter `,`, quote character `"` with doubled quotes inside quoted fields
(`doublequote=True`), non-strict recovery after a closing quote, `\r` and
`\n` terminating a row.  Since `parse_csv_to_records` splits the stripped
text on `\n` and feeds the pieces to `DictReader`, a line's trailing `\r`
run is consumed as a line terminator, a bare `\r` *inside* a line raises
`csv.Error` ("new-line character seen in unquoted field") which the code
catches, returning `([], [])`, a blank line is a blank row (skipped by
`DictReader`), a quoted field may span several split pieces, and an
unterminated quote at end of input yields the partial field (non-strict).
`DictWriter` writes with the default `\r\n` line terminator, quotes
minimally (doubling quotes, and quoting a single-empty-field row as `""`),
writes missing fields and `None` as empty, and raises `ValueError` on
fields outside the header list (`extrasaction='raise'`).  `md5` of the
serialized record is modelled by the serialized text itself. -/

/-- Python `str.strip()` whitespace (the code points `str.isspace` accepts). -/
def pyWs (c : Char) : Bool :=
  (9 ≤ c.toNat && c.toNat ≤ 13) || (28 ≤ c.toNat && c.toNat ≤ 31)
    || c.toNat = 32 || c.toNat = 133 || c.toNat = 160 || c.toNat = 5760
    || (8192 ≤ c.toNat && c.toNat ≤ 8202) || c.toNat = 8232 || c.toNat = 8233
    || c.toNat = 8239 || c.toNat = 8287 || c.toNat = 12288

/-- Python `str.strip()`. -/
def pyStrip (l : List Char) : List Char :=
  ((l.dropWhile pyWs).reverse.dropWhile pyWs).reverse

/-- Python `str.split(sep)` for a one-character separator. -/
def splitSep (sep : Char) : List Char → List (List Char)
  | [] => [[]]
  | c :: t =>
    if c = sep then [] :: splitSep sep t
    else
      match splitSep sep t with
      | [] => [[c]]
      | h :: r => (c :: h) :: r

/-- The parser states of the `csv` reader (`_csv.c`): `stR` = START_RECORD,
`stF` = START_FIELD, `inF` = IN_FIELD, `inQ` = IN_QUOTED_FIELD,
`qInQ` = QUOTE_IN_QUOTED_FIELD, `eat` = EAT_CRNL. -/
inductive CsvSt where
  | stR
  | stF
  | inF
  | inQ
  | qInQ
  | eat
deriving DecidableEq, Repr

/-- The reader's loop state: parser state, the field collected so far, and
the completed fields of the current row. -/
structure CsvPState where
  st : CsvSt
  fld : List Char
  row : List (List Char)
deriving DecidableEq, Repr

/-- START_FIELD of the default dialect (`,` delimiter, `"` quote, no escape
character, `skipinitialspace=False`); also reached by fallthrough from
START_RECORD on an ordinary character. -/
def csvStartField (p : CsvPState) (c : Char) : CsvPState :=
  if c = '\n' || c = '\r' then ⟨.eat, [], p.row ++ [p.fld]⟩
  else if c = '"' then ⟨.inQ, p.fld, p.row⟩
  else if c = ',' then ⟨.stF, [], p.row ++ [p.fld]⟩
  else ⟨.inF, p.fld ++ [c], p.row⟩

/-- One character of `parse_process_char` (default dialect, non-strict):
`none` is `csv.Error` ("new-line character seen in unquoted field"), raised
when an ordinary character follows a row terminator inside one line. -/
def csvStep (p : CsvPState) (c : Char) : Option CsvPState :=
  match p.st with
  | .stR =>
    if c = '\n' || c = '\r' then some ⟨.eat, p.fld, p.row⟩
    else some (csvStartField p c)
  | .stF => some (csvStartField p c)
  | .inF =>
    if c = '\n' || c = '\r' then some ⟨.eat, [], p.row ++ [p.fld]⟩
    else if c = ',' then some ⟨.stF, [], p.row ++ [p.fld]⟩
    else some ⟨.inF, p.fld ++ [c], p.row⟩
  | .inQ =>
    if c = '"' then some ⟨.qInQ, p.fld, p.row⟩
    else some ⟨.inQ, p.fld ++ [c], p.row⟩
  | .qInQ =>
    if c = '"' then some ⟨.inQ, p.fld ++ ['"'], p.row⟩
    else if c = ',' then some ⟨.stF, [], p.row ++ [p.fld]⟩
    else if c = '\n' || c = '\r' then some ⟨.eat, [], p.row ++ [p.fld]⟩
    else some ⟨.inF, p.fld ++ [c], p.row⟩
  | .eat =>
    if c = '\n' || c = '\r' then some p
    else none

/-- End of one source line (`parse_process_char` with EOL): either a
completed row (a blank line gives the empty row), or no row when inside a
quoted field, which continues on the next source line. -/
def csvEol (p : CsvPState) : Option (List (List Char)) × CsvPState :=
  match p.st with
  | .stR => (some p.row, ⟨.stR, [], []⟩)
  | .stF => (some (p.row ++ [p.fld]), ⟨.stR, [], []⟩)
  | .inF => (some (p.row ++ [p.fld]), ⟨.stR, [], []⟩)
  | .inQ => (none, p)
  | .qInQ => (some (p.row ++ [p.fld]), ⟨.stR, [], []⟩)
  | .eat => (some p.row, ⟨.stR, [], []⟩)

/-- Feed the characters of one source line to the state machine. -/
def csvChars (p : CsvPState) : List Char → Option CsvPState
  | [] => some p
  | c :: t =>
    match csvStep p c with
    | none => none
    | some q => csvChars q t

/-- `Reader_iternext` over the list of source lines: collect the rows; at end
of input an unterminated quoted field is saved as a partial row (the default
dialect is non-strict, so no "unexpected end of data" error is raised). -/
def csvReadAux : List (List Char) → CsvPState → List (List (List Char)) →
    Option (List (List (List Char)))
  | [], p, acc =>
    match p.st with
    | .inQ => some (acc ++ [p.row ++ [p.fld]])
    | _ => some acc
  | l :: ls, p, acc =>
    match csvChars p l with
    | none => none
    | some q =>
      match csvEol q with
      | (none, q2) => csvReadAux ls q2 acc
      | (some row, q2) => csvReadAux ls q2 (acc ++ [row])

/-- All rows `csv.reader` yields on a list of source lines, `none` on
`csv.Error`. -/
def csvReadRows (lines : List (List Char)) : Option (List (List (List Char))) :=
  csvReadAux lines ⟨.stR, [], []⟩ []

/-- A `DictReader` record: `fields` is the Python dict (insertion order,
values `none` for the `restval` of short rows), `extras` the `row[lf:]` list
stored under the `None` restkey for long rows. -/
structure PyRec where
  fields : List (List Char × Option (List Char))
  extras : List (List Char)
deriving DecidableEq, Repr

/-- Python dict assignment: update in place or append. -/
def dictInsert (l : List (List Char × Option (List Char))) (k : List Char)
    (v : Option (List Char)) : List (List Char × Option (List Char)) :=
  match l with
  | [] => [(k, v)]
  | (k0, v0) :: t => if k0 = k then (k0, v) :: t else (k0, v0) :: dictInsert t k v

/-- `DictReader.__next__`'s record construction: `dict(zip(fieldnames, row))`,
then `restval=None` for missing fields and `row[lf:]` under the restkey. -/
def mkRecord (headers row : List (List Char)) : PyRec :=
  let base := (List.zip headers row).foldl
    (fun d kv => dictInsert d kv.1 (some kv.2)) []
  let withRest := (headers.drop row.length).foldl
    (fun d k => dictInsert d k none) base
  { fields := withRest, extras := row.drop headers.length }

/-- `DataConsolidationService.parse_csv_to_records`: strip, split on `\n`,
run `DictReader` over the pieces (`fieldnames` is the first row — `None`
coerced to `[]` by `reader.fieldnames or []` — and blank rows are skipped
when reading records); `csv.Error` is caught and yields `([], [])`. -/
def parse_csv_to_records (t : List Char) : List (List Char) × List PyRec :=
  let lines := splitSep '\n' (pyStrip t)
  match csvReadRows lines with
  | none => ([], [])
  | some [] => ([], [])
  | some (first :: rest) =>
    (first, rest.filterMap (fun row =>
      if row = [] then none else some (mkRecord first row)))

def lbrace : Char := Char.ofNat 123

def rbrace : Char := Char.ofNat 125

/-- `json.dumps` string escaping for the characters that can occur in parsed
fields. -/
def jsonEscChar (c : Char) : List Char :=
  if c = '"' then ['\\', '"']
  else if c = '\\' then ['\\', '\\']
  else if c = '\t' then ['\\', 't']
  else [c]

def jsonStr (s : List Char) : List Char :=
  '"' :: (s.map jsonEscChar).join ++ ['"']

def jsonVal : Option (List Char) → List Char
  | none => 'n' :: 'u' :: 'l' :: 'l' ::[]
  | some s => jsonStr s

/-- Join pieces with a separator (`sep.join(...)`). -/
def joinSep (sep : List Char) : List (List Char) → List Char
  | [] => []
  | [x] => x
  | x :: y :: r => x ++ sep ++ joinSep sep (y :: r)

def jsonObj (items : List (List Char)) : List Char :=
  lbrace :: joinSep (',' :: ' ' ::[]) items ++ [rbrace]

def jsonArr (items : List (List Char)) : List Char :=
  '[' :: joinSep (',' :: ' ' ::[]) items ++ [']']

/-- Python string `<` (lexicographic by code point). -/
def clLt : List Char → List Char → Bool
  | [], [] => false
  | [], _ :: _ => true
  | _ :: _, [] => false
  | a :: as2, b :: bs2 =>
    if a.toNat < b.toNat then true
    else if b.toNat < a.toNat then false
    else clLt as2 bs2

def insertSorted (p : List Char × Option (List Char)) :
    List (List Char × Option (List Char)) → List (List Char × Option (List Char))
  | [] => [p]
  | q :: t => if clLt p.1 q.1 then p :: q :: t else q :: insertSorted p t

/-- `sorted` by key (keys are unique, so stability is irrelevant). -/
def sortPairs (l : List (List Char × Option (List Char))) :
    List (List Char × Option (List Char)) :=
  l.foldr insertSorted []

def jsonPair (kv : List Char × Option (List Char)) : List Char :=
  jsonStr kv.1 ++ ':' :: ' ' :: jsonVal kv.2

/-- `DataConsolidationService.generate_record_hash`: md5 of
`json.dumps(record, sort_keys=True, default=str)`, modelled by the serialized
text.  When the record carries a `None` restkey (`extras ≠ []`), sorting the
keys raises `TypeError` and the code falls back to `json.dumps(record)` in
insertion order, where the `None` key is rendered as `"null"`. -/
def generate_record_hash (r : PyRec) : List Char :=
  if r.extras = [] then jsonObj ((sortPairs r.fields).map jsonPair)
  else
    jsonObj ((r.fields.map jsonPair) ++
      [jsonStr ('n' :: 'u' :: 'l' :: 'l' ::[]) ++ ':' :: ' ' :: jsonArr (r.extras.map jsonStr)])

/-- `csv.writer` field rendering with `QUOTE_MINIMAL`; `None` is written as
the empty field. -/
def csvField : Option (List Char) → List Char
  | none => []
  | some s =>
    if s.any (fun c => c = ',' || c = '"' || c = '\n' || c = '\r') then
      '"' :: (s.map (fun c => if c = '"' then ['"', '"'] else [c])).join ++ ['"']
    else s

def fieldsGet : List (List Char × Option (List Char)) → List Char →
    Option (Option (List Char))
  | [], _ => none
  | (k0, v0) :: t, k => if k0 = k then some v0 else fieldsGet t k

/-- One `DictWriter` cell: a missing key gets `restval ''`; a `None` value is
written empty. -/
def cellOf (r : PyRec) (k : List Char) : List Char :=
  match fieldsGet r.fields k with
  | some v => csvField v
  | none => csvField (some [])

def CRLF : List Char := '\r' :: '\n' ::[]

/-- One output line of `csv.writer`: a row consisting of a single empty,
otherwise-unquoted field is forced to `""` under `QUOTE_MINIMAL`, so it is
not read back as a blank line. -/
def renderLine (cells : List (List Char)) : List Char :=
  if cells = [[]] then '"' :: '"' ::[] else joinSep [','] cells

def renderRow (headers : List (List Char)) (r : PyRec) : List Char :=
  renderLine (headers.map (cellOf r))

/-- `DictWriter.writeheader()` followed by `writerows` (default line
terminator `\r\n`). -/
def writeCSV (headers : List (List Char)) (recs : List PyRec) : List Char :=
  (renderLine (headers.map (fun h => csvField (some h))) ++ CRLF)
    ++ (recs.map (fun r => renderRow headers r ++ CRLF)).join

/-- `DictWriter`'s `extrasaction='raise'` check: any key outside the header
list (including the `None` restkey) raises `ValueError`. -/
def wrongFields (headers : List (List Char)) (r : PyRec) : Bool :=
  r.fields.any (fun kv => !(headers.contains kv.1)) || !(r.extras.isEmpty)

/-- The loop state of `merge_csv_data`. -/
structure MergeState where
  headers : Option (List (List Char))
  recs : List PyRec
  hashes : List (List Char)
  dups : Nat
deriving DecidableEq, Repr

/-- The record body of `merge_csv_data`'s inner loop: with deduplication, a
record whose hash was already seen only bumps `duplicates_found`. -/
def addRecord (dedup : Bool) (st : MergeState) (r : PyRec) : MergeState :=
  if dedup then
    let h := generate_record_hash r
    if st.hashes.contains h then { st with dups := st.dups + 1 }
    else { st with hashes := st.hashes ++ [h], recs := st.recs ++ [r] }
  else { st with recs := st.recs ++ [r] }

/-- The file body of `merge_csv_data`'s outer loop: parse, adopt the *first*
file's headers, then add every record. -/
def addFile (dedup : Bool) (st : MergeState) (f : List Char) : MergeState :=
  let parsed := parse_csv_to_records f
  let st1 := match st.headers with
    | none => { st with headers := some parsed.1 }
    | some _ => st
  parsed.2.foldl (addRecord dedup) st1

/-- `DataConsolidationService.merge_csv_data(csv_files, deduplicate)`:
returns `(merged_csv, total_records, duplicates_found)`; `("", 0, 0)` when
headers are falsy or when `DictWriter` raises on a record with keys outside
the adopted header list. -/
def merge_csv_data (csv_files : List (List Char)) (dedup : Bool) :
    List Char × Nat × Nat :=
  let fin := csv_files.foldl (addFile dedup) ⟨none, [], [], 0⟩
  match fin.headers with
  | none => ([], 0, 0)
  | some [] => ([], 0, 0)
  | some hs =>
    if fin.recs.any (wrongFields hs) then ([], 0, 0)
    else (writeCSV hs fin.recs, fin.recs.length, fin.dups)

/-- The first line of an emitted CSV text. -/
def firstLine (l : List Char) : List Char :=
  l.takeWhile (fun c => !(c = '\r' || c = '\n'))

/-- Modelled from the spec (refinement comparison only, not from the code):
"a merged header set equal to the union of all input headers, in sorted
order". -/
def specSortedUnionHeaders (csv_files : List (List Char)) : List (List Char) :=
  let all := (csv_files.map (fun f => (parse_csv_to_records f).1)).join
  all.foldr insertKey []
where
  insertKey (k : List Char) : List (List Char) → List (List Char)
    | [] => [k]
    | q :: t =>
      if k = q then q :: t
      else if clLt k q then k :: q :: t
      else q :: insertKey k t

end DataConsolidationService

namespace DataConsolidationService

/-!
### Merge-loop lemmas
-/

theorem addRecord_count (dedup : Bool) (st : MergeState) (r : PyRec) :
    (addRecord dedup st r).recs.length + (addRecord dedup st r).dups
      = st.recs.length + st.dups + 1 := by
  unfold addRecord
  split
  · dsimp only
    split <;> simp <;> omega
  · simp
    omega

theorem addRecord_headers (dedup : Bool) (st : MergeState) (r : PyRec) :
    (addRecord dedup st r).headers = st.headers := by
  unfold addRecord
  split
  · dsimp only
    split <;> rfl
  · rfl

theorem addRecord_recs_subset (dedup : Bool) (st : MergeState) (r : PyRec) :
    ∀ q ∈ (addRecord dedup st r).recs, q ∈ st.recs ∨ q = r := by
  intro q hq
  unfold addRecord at hq
  split at hq
  · dsimp only at hq
    split at hq
    · exact Or.inl hq
    · simp only [List.mem_append, List.mem_singleton] at hq
      exact hq
  · simp only [List.mem_append, List.mem_singleton] at hq
    exact hq

theorem foldl_addRecord_count (dedup : Bool) :
    ∀ (rs : List PyRec) (st : MergeState),
      (rs.foldl (addRecord dedup) st).recs.length
          + (rs.foldl (addRecord dedup) st).dups
        = st.recs.length + st.dups + rs.length := by
  intro rs
  induction rs with
  | nil => intro st; simp
  | cons r rs ih =>
    intro st
    simp only [List.foldl_cons, List.length_cons]
    rw [ih (addRecord dedup st r), addRecord_count]
    omega

theorem foldl_addRecord_headers (dedup : Bool) :
    ∀ (rs : List PyRec) (st : MergeState),
      (rs.foldl (addRecord dedup) st).headers = st.headers := by
  intro rs
  induction rs with
  | nil => intro st; rfl
  | cons r rs ih =>
    intro st
    simp only [List.foldl_cons]
    rw [ih (addRecord dedup st r), addRecord_headers]

theorem foldl_addRecord_recs_subset (dedup : Bool) :
    ∀ (rs : List PyRec) (st : MergeState),
      ∀ q ∈ (rs.foldl (addRecord dedup) st).recs, q ∈ st.recs ∨ q ∈ rs := by
  intro rs
  induction rs with
  | nil =>
    intro st q hq
    exact Or.inl hq
  | cons r rs ih =>
    intro st q hq
    simp only [List.foldl_cons] at hq
    rcases ih (addRecord dedup st r) q hq with h | h
    · rcases addRecord_recs_subset dedup st r q h with h2 | h2
      · exact Or.inl h2
      · exact Or.inr (h2 ▸ List.mem_cons_self r rs)
    · exact Or.inr (List.mem_cons_of_mem r h)

theorem addFile_headers_of_some {st : MergeState} {h : List (List Char)}
    (hh : st.headers = some h) (dedup : Bool) (f : List Char) :
    (addFile dedup st f).headers = some h := by
  unfold addFile
  rw [foldl_addRecord_headers, hh]
  exact hh

theorem addFile_headers_of_none {st : MergeState} (hh : st.headers = none)
    (dedup : Bool) (f : List Char) :
    (addFile dedup st f).headers = some (parse_csv_to_records f).1 := by
  unfold addFile
  rw [foldl_addRecord_headers, hh]

theorem addFile_count (dedup : Bool) (st : MergeState) (f : List Char) :
    (addFile dedup st f).recs.length + (addFile dedup st f).dups
      = st.recs.length + st.dups + (parse_csv_to_records f).2.length := by
  unfold addFile
  rw [foldl_addRecord_count]
  split <;> rfl

theorem addFile_recs_subset (dedup : Bool) (st : MergeState) (f : List Char) :
    ∀ q ∈ (addFile dedup st f).recs, q ∈ st.recs ∨ q ∈ (parse_csv_to_records f).2 := by
  intro q hq
  unfold addFile at hq
  rcases foldl_addRecord_recs_subset dedup _ _ q hq with h | h
  · split at h <;> exact Or.inl h
  · exact Or.inr h

theorem addFile_skip {st : MergeState} {h : List (List Char)} {bad : List Char}
    (hh : st.headers = some h) (hbad : parse_csv_to_records bad = ([], []))
    (dedup : Bool) : addFile dedup st bad = st := by
  unfold addFile
  rw [hbad, hh]
  rfl

theorem foldl_addFile_headers {st : MergeState} {h : List (List Char)}
    (hh : st.headers = some h) (dedup : Bool) :
    ∀ fs : List (List Char), (fs.foldl (addFile dedup) st).headers = some h := by
  intro fs
  induction fs generalizing st with
  | nil => exact hh
  | cons f fs ih =>
    simp only [List.foldl_cons]
    exact ih (addFile_headers_of_some hh dedup f)

theorem foldl_addFile_recs_subset (dedup : Bool) :
    ∀ (fs : List (List Char)) (st : MergeState),
      ∀ q ∈ (fs.foldl (addFile dedup) st).recs,
        q ∈ st.recs ∨ ∃ b ∈ fs, q ∈ (parse_csv_to_records b).2 := by
  intro fs
  induction fs with
  | nil =>
    intro st q hq
    exact Or.inl hq
  | cons f fs ih =>
    intro st q hq
    simp only [List.foldl_cons] at hq
    rcases ih (addFile dedup st f) q hq with h | ⟨b, hb, hq2⟩
    · rcases addFile_recs_subset dedup st f q h with h2 | h2
      · exact Or.inl h2
      · exact Or.inr ⟨f, List.mem_cons_self f fs, h2⟩
    · exact Or.inr ⟨b, List.mem_cons_of_mem f hb, hq2⟩

/-!
### Character-level facts about split pieces
-/

theorem splitSep_ne_nil (sep : Char) (l : List Char) : splitSep sep l ≠ [] := by
  cases l with
  | nil => simp [splitSep]
  | cons c t =>
    unfold splitSep
    split
    · simp
    · split <;> simp

theorem splitSep_pieces_no_sep (sep : Char) :
    ∀ l piece, piece ∈ splitSep sep l → sep ∉ piece := by
  intro l
  induction l with
  | nil =>
    intro piece hp
    simp only [splitSep, List.mem_singleton] at hp
    subst hp
    simp
  | cons c t ih =>
    intro piece hp
    unfold splitSep at hp
    split at hp
    · rename_i hceq
      subst hceq
      rcases List.mem_cons.mp hp with h | h
      · subst h
        simp
      · exact ih piece h
    · rename_i hcne
      cases hsp : splitSep sep t with
      | nil => exact absurd hsp (splitSep_ne_nil sep t)
      | cons h0 r =>
        rw [hsp] at hp
        rcases List.mem_cons.mp hp with h | h
        · subst h
          intro hmem
          rcases List.mem_cons.mp hmem with h2 | h2
          · exact hcne h2.symm
          · exact ih h0 (hsp ▸ List.mem_cons_self h0 r) h2
        · exact ih piece (hsp ▸ List.mem_cons_of_mem h0 h)

theorem splitSep_pieces_subset (sep : Char) :
    ∀ l piece, piece ∈ splitSep sep l → ∀ c ∈ piece, c ∈ l := by
  intro l
  induction l with
  | nil =>
    intro piece hp
    simp only [splitSep, List.mem_singleton] at hp
    subst hp
    simp
  | cons c0 t ih =>
    intro piece hp
    unfold splitSep at hp
    split at hp
    · rcases List.mem_cons.mp hp with h | h
      · subst h
        simp
      · intro c hc
        exact List.mem_cons_of_mem c0 (ih piece h c hc)
    · cases hsp : splitSep sep t with
      | nil => exact absurd hsp (splitSep_ne_nil sep t)
      | cons h0 r =>
        rw [hsp] at hp
        rcases List.mem_cons.mp hp with h | h
        · subst h
          intro c hc
          rcases List.mem_cons.mp hc with h2 | h2
          · exact h2 ▸ List.mem_cons_self c0 t
          · exact List.mem_cons_of_mem c0
              (ih h0 (hsp ▸ List.mem_cons_self h0 r) c h2)
        · intro c hc
          exact List.mem_cons_of_mem c0
            (ih piece (hsp ▸ List.mem_cons_of_mem h0 h) c hc)

theorem joinSep_chars (sep : List Char) :
    ∀ pieces c, c ∈ joinSep sep pieces → c ∈ sep ∨ ∃ f ∈ pieces, c ∈ f := by
  intro pieces
  induction pieces with
  | nil =>
    intro c hc
    simp [joinSep] at hc
  | cons x r ih =>
    intro c hc
    cases r with
    | nil =>
      simp only [joinSep] at hc
      exact Or.inr ⟨x, List.mem_singleton.mpr rfl, hc⟩
    | cons y r2 =>
      simp only [joinSep, List.append_assoc, List.mem_append] at hc
      rcases hc with hc | hc | hc
      · exact Or.inr ⟨x, List.mem_cons_self x _, hc⟩
      · exact Or.inl hc
      · rcases ih c hc with h | ⟨f, hf, hcf⟩
        · exact Or.inl h
        · exact Or.inr ⟨f, List.mem_cons_of_mem x hf, hcf⟩

end DataConsolidationService

namespace DataConsolidationService

theorem csvField_id {f : List Char}
    (h : ∀ c ∈ f, c ≠ ',' ∧ c ≠ '"' ∧ c ≠ '\n' ∧ c ≠ '\r') :
    csvField (some f) = f := by
  unfold csvField
  dsimp only
  rw [if_neg]
  rw [Bool.not_eq_true, List.any_eq_false]
  intro c hc
  obtain ⟨h1, h2, h3, h4⟩ := h c hc
  simp [h1, h2, h3, h4]

/-- The first output line of the writer is the adopted header row (for
headers other than a lone empty name, which the writer quotes as `""`). -/
theorem firstLine_writeCSV {h1 : List (List Char)} (recs : List PyRec)
    (hok : ∀ f ∈ h1, ∀ c ∈ f, c ≠ ',' ∧ c ≠ '"' ∧ c ≠ '\n' ∧ c ≠ '\r')
    (hnz : h1 ≠ [[]]) :
    firstLine (writeCSV h1 recs) = joinSep [','] h1 := by
  unfold writeCSV firstLine renderLine
  rw [List.map_congr_left (fun f hf => csvField_id (hok f hf)), List.map_id']
  rw [if_neg hnz]
  rw [List.append_assoc, List.takeWhile_append_of_pos]
  · unfold CRLF
    rw [List.cons_append, List.takeWhile_cons_of_neg (by decide)]
    simp
  · intro c hc
    rcases joinSep_chars [','] h1 c hc with h | ⟨f, hf, hcf⟩
    · simp only [List.mem_singleton] at h
      subst h
      decide
    · obtain ⟨-, -, h3, h4⟩ := hok f hf c hcf
      simp [h3, h4]

/-- Claim C2, counterexample: merging `"b,a\n1,2"` with `"a\n3"` yields the
*first* batch's header row `"b,a"`, not the lexicographically sorted union
`"a,b"` of all input headers. -/
theorem C2_counterexample :
    firstLine (merge_csv_data [("b,a\n1,2").toList, ("a\n3").toList] true).1
      = ("b,a").toList ∧
    specSortedUnionHeaders [("b,a\n1,2").toList, ("a\n3").toList]
      = [("a").toList, ("b").toList] ∧
    ("b,a").toList ≠ joinSep [','] [("a").toList, ("b").toList] :=
  ⟨by decide, by decide, by decide⟩

/-- Claim C2, amended: the merged output's header row equals the *first*
batch's header list in its original order (not the sorted union), whenever
the header names need no csv quoting (no comma, quote, newline or carriage
return, and not a lone empty name); a field missing from a record of a later
batch is written as an empty value (second conjunct: the record `{a: 3}` of
the second batch is written as `",3"` under headers `b,a`); and a later
batch containing a field outside the first batch's headers makes the whole
merge return `("", 0, 0)` (`DictWriter` raises). -/
theorem C2_first_batch_headers :
    (∀ b1 rest h1 r1 d,
      parse_csv_to_records b1 = (h1, r1) →
      h1 ≠ [] →
      h1 ≠ [[]] →
      (∀ f ∈ h1, ∀ c ∈ f, c ≠ ',' ∧ c ≠ '"' ∧ c ≠ '\n' ∧ c ≠ '\r') →
      (∀ r ∈ r1, wrongFields h1 r = false) →
      (∀ b ∈ rest, ∀ r ∈ (parse_csv_to_records b).2, wrongFields h1 r = false) →
      firstLine (merge_csv_data (b1 :: rest) d).1 = joinSep [','] h1) ∧
    merge_csv_data [("b,a\n1,2").toList, ("a\n3").toList] true
      = (("b,a\r\n1,2\r\n,3\r\n").toList, 2, 0) ∧
    merge_csv_data [("a\n3").toList, ("b,a\n1,2").toList] true = ([], 0, 0) := by
  refine ⟨?_, by decide, by decide⟩
  intro b1 rest h1 r1 d hp1 hne hnz hclean hc1 hcrest
  unfold merge_csv_data
  simp only [List.foldl_cons]
  have hH1 : (addFile d ⟨none, [], [], 0⟩ b1).headers = some h1 := by
    rw [addFile_headers_of_none rfl, hp1]
  have hHfin : (rest.foldl (addFile d) (addFile d ⟨none, [], [], 0⟩ b1)).headers
      = some h1 := foldl_addFile_headers hH1 d rest
  rw [hHfin]
  cases h1 with
  | nil => exact absurd rfl hne
  | cons f0 h1t =>
    dsimp only
    have hsub := foldl_addFile_recs_subset d rest (addFile d ⟨none, [], [], 0⟩ b1)
    have hwf : ((rest.foldl (addFile d) (addFile d ⟨none, [], [], 0⟩ b1)).recs.any
        (wrongFields (f0 :: h1t))) = false := by
      rw [List.any_eq_false]
      intro r hr
      rcases hsub r hr with h | ⟨b, hb, hr2⟩
      · rcases addFile_recs_subset d _ b1 r h with h2 | h2
        · cases h2
        · rw [hp1] at h2
          simp [hc1 r h2]
      · simp [hcrest b hb r hr2]
    rw [hwf]
    simp only [Bool.false_eq_true, if_false]
    exact firstLine_writeCSV _ hclean hnz

/-- Claim C2, witness: the first-batch-header theorem instantiated at the
counterexample's input. -/
theorem C2_first_batch_headers_witness :
    parse_csv_to_records (("b,a\n1,2").toList)
      = ([("b").toList, ("a").toList],
         [⟨[(("b").toList, some (("1").toList)), (("a").toList, some (("2").toList))], []⟩]) ∧
    firstLine (merge_csv_data [("b,a\n1,2").toList, ("a\n3").toList] true).1
      = joinSep [','] [("b").toList, ("a").toList] :=
  ⟨by decide,
    C2_first_batch_headers.1 (("b,a\n1,2").toList) [("a\n3").toList]
      [("b").toList, ("a").toList]
      [⟨[(("b").toList, some (("1").toList)), (("a").toList, some (("2").toList))], []⟩]
      true (by decide) (by decide) (by decide) (by decide) (by decide) (by decide)⟩

/-- Claim C4: for parseable batches with compatible headers (every record's
fields lie inside the first batch's non-empty header list and no record
overflows its header row), `merge_csv_data` with deduplication returns counts
summing to the total number of input records; and two one-row batches whose
rows collide on the content fingerprint merge to
`record_count = 1, duplicates_dropped = 1`. -/
theorem C4_dedup_counts :
    (∀ b1 b2 h1 r1 h2 r2,
      parse_csv_to_records b1 = (h1, r1) →
      parse_csv_to_records b2 = (h2, r2) →
      h1 ≠ [] →
      (∀ r ∈ r1 ++ r2, wrongFields h1 r = false) →
      (merge_csv_data [b1, b2] true).2.1 + (merge_csv_data [b1, b2] true).2.2
        = r1.length + r2.length) ∧
    merge_csv_data [("a,b\n1,2").toList, ("a,b\n1,2").toList] true
      = (("a,b\r\n1,2\r\n").toList, 1, 1) := by
  refine ⟨?_, by decide⟩
  intro b1 b2 h1 r1 h2 r2 hp1 hp2 hne hcompat
  unfold merge_csv_data
  simp only [List.foldl_cons, List.foldl_nil]
  have hH1 : (addFile true ⟨none, [], [], 0⟩ b1).headers = some h1 := by
    rw [addFile_headers_of_none rfl, hp1]
  have hH2 : (addFile true (addFile true ⟨none, [], [], 0⟩ b1) b2).headers = some h1 :=
    addFile_headers_of_some hH1 true b2
  have hcount : (addFile true (addFile true ⟨none, [], [], 0⟩ b1) b2).recs.length
      + (addFile true (addFile true ⟨none, [], [], 0⟩ b1) b2).dups
      = r1.length + r2.length := by
    rw [addFile_count, addFile_count, hp1, hp2]
    simp
  rw [hH2]
  cases h1 with
  | nil => exact absurd rfl hne
  | cons f0 h1t =>
    dsimp only
    have hwf : ((addFile true (addFile true ⟨none, [], [], 0⟩ b1) b2).recs.any
        (wrongFields (f0 :: h1t))) = false := by
      rw [List.any_eq_false]
      intro r hr
      rcases addFile_recs_subset true _ b2 r hr with h | h
      · rcases addFile_recs_subset true _ b1 r h with h2 | h2
        · cases h2
        · rw [hp1] at h2
          simp [hcompat r (List.mem_append_left r2 h2)]
      · rw [hp2] at h
        simp [hcompat r (List.mem_append_right r1 h)]
    rw [hwf]
    simp only [Bool.false_eq_true, if_false]
    exact hcount

/-- Claim C4, witness: the count identity instantiated at the colliding
one-row batches. -/
theorem C4_dedup_counts_witness :
    parse_csv_to_records (("a,b\n1,2").toList)
      = ([("a").toList, ("b").toList],
         [⟨[(("a").toList, some (("1").toList)), (("b").toList, some (("2").toList))], []⟩]) ∧
    (merge_csv_data [("a,b\n1,2").toList, ("a,b\n1,2").toList] true).2.1
      + (merge_csv_data [("a,b\n1,2").toList, ("a,b\n1,2").toList] true).2.2
      = 1 + 1 :=
  ⟨by decide,
    C4_dedup_counts.1 (("a,b\n1,2").toList) (("a,b\n1,2").toList)
      [("a").toList, ("b").toList]
      [⟨[(("a").toList, some (("1").toList)), (("b").toList, some (("2").toList))], []⟩]
      [("a").toList, ("b").toList]
      [⟨[(("a").toList, some (("1").toList)), (("b").toList, some (("2").toList))], []⟩]
      (by decide) (by decide) (by decide) (by decide)⟩

/-- Claim C9, counterexample: a batch that fails to parse (a bare CR raises
`csv.Error`) placed *first* makes the merge adopt the empty header list and
return `("", 0, 0)`, discarding the rows of the healthy second batch instead
of merging them. -/
theorem C9_counterexample :
    parse_csv_to_records (("x\ry").toList) = ([], []) ∧
    merge_csv_data [("x\ry").toList, ("a\n1").toList] true = ([], 0, 0) ∧
    merge_csv_data [("a\n1").toList] true = (("a\r\n1\r\n").toList, 1, 0) :=
  ⟨by decide, by decide, by decide⟩

/-- Claim C9, amended: an entirely empty input list yields the empty result
`("", 0, 0)` rather than an error; and a batch that yields no headers and no
records (a `csv.Error` caught by `parse_csv_to_records`, or an
all-whitespace batch) is skipped — the merge of the remaining batches is
unchanged — provided it is not the first batch; a failing *first* batch
makes the whole merge return `("", 0, 0)` because its empty header list is
adopted for the output. -/
theorem C9_failed_batch_skipped :
    (∀ d, merge_csv_data [] d = ([], 0, 0)) ∧
    (∀ (xs : List (List Char)) (bad : List Char) (ys : List (List Char)) d,
      parse_csv_to_records bad = ([], []) → xs ≠ [] →
      merge_csv_data (xs ++ bad :: ys) d = merge_csv_data (xs ++ ys) d) := by
  refine ⟨fun d => rfl, ?_⟩
  intro xs bad ys d hbad hxs
  unfold merge_csv_data
  cases xs with
  | nil => exact absurd rfl hxs
  | cons x xs2 =>
    simp only [List.cons_append, List.foldl_cons, List.foldl_append]
    have hH1 : (addFile d ⟨none, [], [], 0⟩ x).headers
        = some (parse_csv_to_records x).1 := addFile_headers_of_none rfl d x
    have hH2 : (xs2.foldl (addFile d) (addFile d ⟨none, [], [], 0⟩ x)).headers
        = some (parse_csv_to_records x).1 := foldl_addFile_headers hH1 d xs2
    rw [addFile_skip hH2 hbad]

/-- Claim C9, witness: skipping a malformed non-first batch leaves the merge
unchanged. -/
theorem C9_failed_batch_skipped_witness :
    parse_csv_to_records (("x\ry").toList) = ([], []) ∧
    ([("a\n1").toList] : List (List Char)) ≠ [] ∧
    merge_csv_data ([("a\n1").toList] ++ ("x\ry").toList :: []) true
      = merge_csv_data ([("a\n1").toList] ++ []) true :=
  ⟨by decide, by decide,
    C9_failed_batch_skipped.2 [("a\n1").toList] (("x\ry").toList) [] true
      (by decide) (by decide)⟩

end DataConsolidationService
